import Mathlib

/-!
# Verification of the virtual-coach trampoline core

Shallow embedding of the repository's core algorithmic modules:

* `src/models/SkillDefinition.ts` — the skill data model,
* `src/utils/skillUtils.ts` — the difficulty scoring engine (with its
  memoization cache modelled as an explicit association list),
* `src/utils/skillConverter.ts` — the keyframe converter (the second,
  current revision of the file: dispatch on `flipNumber`, `HandsAndKnees`
  support, guarded twist reads, zero-duration guard in
  `normalizeTimestamps`),
* `src/utils/routineValidation.ts` — routine validation and the random
  routine generator (randomness modelled as an explicit stream of draws
  from `[0,1)`),
* `src/utils/requirementValidation.ts` — the rule-engine validators.

JavaScript numbers are modelled as exact rationals (`ℚ`).  `Math.floor`
is `Int.floor`, `Math.round x` is `⌊x + 1/2⌋` (which is Lean's `round`
on `ℚ`), and JavaScript's truthiness guard `twists[k] || 0` is
`List.getD k 0`.  The one unguarded read, `twists[0]` in the stall phase
of `makeSkillFrames`, yields `undefined` (hence `NaN` after addition) in
JavaScript when `twists` is empty; the cumulative-twist channel is
therefore modelled as `Option ℚ` with `none` playing the role of `NaN`.
Division by zero (unreachable under the derived render properties) is
rational division, whose value at a zero denominator is `0`.
-/

namespace VirtualCoach

/-- `Math.round` of JavaScript: round half toward positive infinity. -/
def jsRound (q : ℚ) : ℤ := ⌊q + 1/2⌋

/-- `roundToTwo` from `skillUtils.ts`: `Math.round(num * 100) / 100`. -/
def roundToTwo (num : ℚ) : ℚ := (jsRound (num * 100) : ℚ) / 100

/-! ## Skill definition model (`src/models/SkillDefinition.ts`) -/

inductive BedPosition where
  | Standing
  | Back
  | Stomach
  | Seated
  | HandsAndKnees
deriving DecidableEq, Repr

/-- Serialization of a `BedPosition` (the TS enum values are strings). -/
def BedPosition.str : BedPosition → String
  | .Standing => "Standing"
  | .Back => "Back"
  | .Stomach => "Stomach"
  | .Seated => "Seated"
  | .HandsAndKnees => "HandsAndKnees"

inductive Position where
  | Straight
  | Tuck
  | Pike
deriving DecidableEq, Repr

/-- Serialization of a `Position`: `Position.Straight` is the string
`"StraightArmsDown"` in the source. -/
def Position.str : Position → String
  | .Straight => "StraightArmsDown"
  | .Tuck => "Tuck"
  | .Pike => "Pike"

structure SkillDefinition where
  name : String
  startingPosition : BedPosition
  endingPosition : BedPosition
  flips : ℚ
  twists : List ℚ
  position : Position
  /-- optional in the source (`possiblePositions?`) -/
  possiblePositions : Option (List Position) := none
  /-- optional in the source (`isBackSkill?`); `undefined` is falsy -/
  isBackSkill : Bool := false
deriving DecidableEq, Repr

/-! ## `totalTwists` (`skillConverter.ts`, second revision)

The source sums the list with a `reduce`, replacing non-numeric or `NaN`
entries by `0`; in the rational model every entry is a number. -/

def totalTwists (definition : SkillDefinition) : ℚ :=
  definition.twists.foldl (fun sum twist => sum + twist) 0

/-! ## Scoring engine (`skillUtils.ts`) -/

/-- `startingPositionRotations` map from `skillUtils.ts`. -/
def startingPositionRotations : BedPosition → ℚ
  | .Standing => 0
  | .Back => -(1/4)
  | .Stomach => 1/4
  | .HandsAndKnees => 1/4
  | .Seated => 0

/-- `getRotationMultiplier` from `skillUtils.ts` (re-exported and used by
`skillConverter.ts`).  The JS parity test `Math.floor(t*2) % 2 !== 0`
is `¬ 2 ∣ ⌊t*2⌋`, which agrees with JS `%` on the zero test. -/
def getRotationMultiplier (definition : SkillDefinition)
    (cumulativeTwist : ℚ) : ℚ :=
  let m1 : ℚ := if definition.isBackSkill then 1 * (-1) else 1
  if ⌊cumulativeTwist * 2⌋ % 2 ≠ 0 then m1 * (-1) else m1

/-- `flipNumber` from `skillUtils.ts`. -/
def flipNumber (skill : SkillDefinition) : ℤ :=
  let rotationMultiplier := getRotationMultiplier skill 0
  let startingRotation := startingPositionRotations skill.startingPosition
  jsRound (skill.flips + startingRotation * rotationMultiplier)

/-- `rotationScore` from `skillUtils.ts`. -/
def rotationScore (skill : SkillDefinition) : ℚ :=
  let rotation := skill.flips
  let scored : ℚ × ℚ :=
    if 1 ≤ rotation ∧ rotation < 2 then (1/2, rotation - 1)
    else if 2 ≤ rotation ∧ rotation < 3 then
      ((1 : ℚ) + (if skill.isBackSkill then 1/10 else 0), rotation - 2)
    else if 3 ≤ rotation ∧ rotation < 4 then
      (16/10 + (if skill.isBackSkill then 2/10 else 0), rotation - 3)
    else if 4 ≤ rotation then
      (22/10 + (if skill.isBackSkill then 3/10 else 0), rotation - 4)
    else (0, rotation)
  scored.1 + (⌊scored.2 / (1/4)⌋ : ℚ) * (1/10)

/-- `twistScore` from `skillUtils.ts`. -/
def twistScore (skill : SkillDefinition) : ℚ :=
  let halfTwists : ℤ := ⌊totalTwists skill / (1/2)⌋
  let score : ℚ := (halfTwists : ℚ) * (1/10)
  if 4 ≤ skill.flips then score * 3
  else if 3 ≤ skill.flips then score + (max 0 (halfTwists - 2) : ℚ) * (2/10)
  else if 2 ≤ skill.flips then score + (max 0 (halfTwists - 2) : ℚ) * (1/10)
  else score

/-- `positionScore` from `skillUtils.ts`. -/
def positionScore (skill : SkillDefinition) : ℚ :=
  if skill.position = Position.Tuck then 0
  else
    let flips : ℤ := ⌊skill.flips⌋
    if flips = 1 ∧ totalTwists skill ≠ 0 then 0
    else (flips : ℚ) * (1/10)

/-- `getSkillCacheKey` from `skillUtils.ts`: the template literal
`` `${name}-${position}-${flips}-${twists}-${isBackSkill}` `` (an array
interpolates as its comma-joined elements). -/
def getSkillCacheKey (skill : SkillDefinition) : String :=
  skill.name ++ "-" ++ skill.position.str ++ "-" ++ toString skill.flips
    ++ "-" ++ String.intercalate "," (skill.twists.map toString)
    ++ "-" ++ (if skill.isBackSkill then "true" else "false")

/-- The score computed by `calculateDifficultyScore` when the cache does
not intervene.  `minDifficulty` stands for
`CONSTANTS.SCORING.MIN_DIFFICULTY`; the constants module is not among
the provided sources, so the constant is kept as a parameter. -/
def difficultyScorePure (minDifficulty : ℚ) (skill : SkillDefinition) : ℚ :=
  if skill.flips = 0 ∧ totalTwists skill = 0 ∧
      skill.position = Position.Straight then 0
  else
    max (roundToTwo (rotationScore skill + twistScore skill +
      positionScore skill)) minDifficulty

/-- The process-wide `difficultyCache` from `skillUtils.ts`, modelled as
an explicit association list from cache keys to scores. -/
abbrev DifficultyCache := List (String × ℚ)

/-- `calculateDifficultyScore` from `skillUtils.ts`, with the module
cache made explicit: returns the score and the updated cache. -/
def calculateDifficultyScore (minDifficulty : ℚ) (cache : DifficultyCache)
    (skill : SkillDefinition) : ℚ × DifficultyCache :=
  if skill.flips = 0 ∧ totalTwists skill = 0 ∧
      skill.position = Position.Straight then
    (0, cache)
  else
    let cacheKey := getSkillCacheKey skill
    match cache.lookup cacheKey with
    | some cached => (cached, cache)
    | none =>
        let score := max (roundToTwo (rotationScore skill + twistScore skill +
          positionScore skill)) minDifficulty
        (score, (cacheKey, score) :: cache)

/-- A cache state is consistent when every entry carries the score the
formula assigns to any skill whose key matches it.  Every cache the
program can reach (starting empty, populated only by
`calculateDifficultyScore` itself) satisfies this. -/
def WFCache (minDifficulty : ℚ) (cache : DifficultyCache) : Prop :=
  ∀ kv ∈ cache, ∀ s : SkillDefinition,
    getSkillCacheKey s = kv.1 → kv.2 = difficultyScorePure minDifficulty s

/-! ## Keyframe converter (`skillConverter.ts`, second revision) -/

structure RenderProperties where
  stallRotation : ℚ
  kickoutRotation : ℚ
  positionTransitionDuration : ℚ
deriving DecidableEq, Repr

/-- `relativePositionSpeeds` table. -/
def relativePositionSpeeds : Position → ℚ
  | .Tuck => 5/2
  | .Pike => 2
  | .Straight => 1

/-- `bedPositionToJoints` table (second revision, with `HandsAndKnees`).
The values are keys into the render layer's static joint-pose table
(`positions` in `Simulator`); the pose is kept as its key. -/
def bedPositionToJoints : BedPosition → String
  | .Standing => "StraightArmsUp"
  | .Back => "StraightArmsDown"
  | .Stomach => "StraightArmsUp"
  | .Seated => "Pike"
  | .HandsAndKnees => "HandsAndKnees"

/-- `defaultSkill` from `skillConverter.ts`, used to compute a rotation
multiplier that depends only on the cumulative twist. -/
def defaultSkill : SkillDefinition :=
  { name := ""
    startingPosition := .Standing
    endingPosition := .Standing
    flips := 0
    twists := []
    position := .Straight
    isBackSkill := false }

/-- `startingRotation` from `skillConverter.ts`. -/
def startingRotation (definition : SkillDefinition)
    (cumulativeTwist : ℚ) : ℚ :=
  let rotationMultiplier := getRotationMultiplier defaultSkill cumulativeTwist
  startingPositionRotations definition.startingPosition * rotationMultiplier

/-- `getRenderPropertiesForSkill` from `skillConverter.ts`. -/
def getRenderPropertiesForSkill (definition : SkillDefinition) :
    RenderProperties :=
  let stallRotation : ℚ := 1/10
  let kickoutRotation : ℚ := 1/2
  let (stallRotation, kickoutRotation) :=
    if definition.flips ≤ 1/2 then ((1/20 : ℚ), (1/20 : ℚ))
    else (stallRotation, kickoutRotation)
  let stallRotation :=
    if definition.startingPosition = BedPosition.Back ∧
        ¬ definition.isBackSkill then (1/4 : ℚ)
    else stallRotation
  let stallRotation :=
    if definition.startingPosition = BedPosition.Stomach ∧
        definition.isBackSkill then (1/4 : ℚ)
    else stallRotation
  let kickoutRotation :=
    if (definition.endingPosition = BedPosition.Back ∧
          ¬ definition.isBackSkill) ∨
        (definition.endingPosition = BedPosition.Stomach ∧
          definition.isBackSkill) then (1/4 : ℚ)
    else kickoutRotation
  let stallTwist := definition.twists.getD 0 0
  let stallRotation := if stallTwist > 0 then (1/5 : ℚ) else stallRotation
  { stallRotation := stallRotation
    kickoutRotation := kickoutRotation
    positionTransitionDuration := 3/20 }

/-- `normalizeTimestamps` (second revision, with the zero-duration
guard). -/
def normalizeTimestamps (timestamps : List ℚ) : List ℚ :=
  let start := timestamps.headD 0
  let «end» := timestamps.getLastD 0
  let duration := «end» - start
  if duration = 0 then timestamps.map (fun _ => 0)
  else timestamps.map (fun t => (t - start) / duration)

/-- A keyframe (`AthletePosition`): the joint pose is kept as its key in
the render layer's pose table, and the twist channel is `Option ℚ` with
`none` for JavaScript's `NaN`. -/
structure AthletePosition where
  rotation : ℚ
  twist : Option ℚ
  joints : String
deriving DecidableEq, Repr

/-- A skill animation (`Skill` from `AthleteController`). -/
structure Skill where
  positions : List AthletePosition
  timestamps : List ℚ
deriving DecidableEq, Repr

/-- Addition on the `NaN`-aware twist channel. -/
def twistAdd (a b : Option ℚ) : Option ℚ :=
  match a, b with
  | some x, some y => some (x + y)
  | _, _ => none

/-- The mutable locals of `makeSkillFrames`'s phase-synthesis loop. -/
structure LoopState where
  cumulativeRotation : ℚ
  cumulativeTwist : Option ℚ
  elapsedTime : ℚ
  frames : List AthletePosition
  timestamps : List ℚ
  previousPosition : Position
deriving Repr

/-- The `addFrameDelta` closure of `makeSkillFrames`. -/
def addFrameDelta (rotationMultiplier : ℚ) (rotationDelta : ℚ)
    (twistDelta : Option ℚ) (pose : String) (rotationSpeed : ℚ)
    (st : LoopState) : LoopState :=
  let cumulativeRotation := st.cumulativeRotation + rotationDelta
  let cumulativeTwist := twistAdd st.cumulativeTwist twistDelta
  let elapsedTime := st.elapsedTime + rotationDelta / rotationSpeed
  { st with
    cumulativeRotation := cumulativeRotation
    cumulativeTwist := cumulativeTwist
    elapsedTime := elapsedTime
    frames := st.frames ++
      [{ rotation := cumulativeRotation * rotationMultiplier
         twist := cumulativeTwist
         joints := pose }]
    timestamps := st.timestamps ++ [elapsedTime] }

/-- `transitionRotation` constant (`1 / 6.0`). -/
def transitionRotation : ℚ := 1/6

/-- The fixed data of the phase-synthesis loop. -/
structure LoopArgs where
  definition : SkillDefinition
  renderProps : RenderProperties
  rotationMultiplier : ℚ
  finalRotation : ℚ

/-- One iteration of the flip loop of `makeSkillFrames` (loop counter
`flipNumber` = `k`).  Returns the updated state and `isLastFlip`.
In the source, `previousPosition` is reassigned to `position` before
`previousSpeed` is read from it, so `previousSpeed` equals `flipSpeed`;
the embedding reproduces that order. -/
def flipIter (args : LoopArgs) (k : ℕ) (st : LoopState) :
    LoopState × Bool :=
  let d := args.definition
  let flipFinalRotation : ℚ := min (k : ℚ) |args.finalRotation|
  let rotationDelta := flipFinalRotation - st.cumulativeRotation
  let isLastFlip : Bool :=
    decide (args.finalRotation ≤ rotationDelta + st.cumulativeRotation)
  let currentTwist := d.twists.getD k 0
  let position :=
    if 0 < currentTwist ∧ isLastFlip = false then Position.Straight
    else d.position
  let flipSpeed := relativePositionSpeeds position
  let needsKickout := isLastFlip = true ∧ position ≠ Position.Straight
  let rotationInPosition :=
    rotationDelta -
      (if isLastFlip = true then args.renderProps.kickoutRotation else 0)
  let thisTransitionRotation :=
    min transitionRotation (rotationInPosition / 2)
  let (st, rotationInPosition) :=
    if position ≠ st.previousPosition then
      let st := { st with previousPosition := position }
      let previousSpeed := relativePositionSpeeds st.previousPosition
      let rotationInPosition := rotationInPosition - thisTransitionRotation
      (addFrameDelta args.rotationMultiplier thisTransitionRotation
        (some 0) position.str ((flipSpeed + previousSpeed) / 2) st,
       rotationInPosition)
    else (st, rotationInPosition)
  if needsKickout then
    let rotationInPosition := rotationInPosition - thisTransitionRotation
    let st := addFrameDelta args.rotationMultiplier rotationInPosition
      (some 0) d.position.str flipSpeed st
    let kickoutTransitionTime := thisTransitionRotation / ((flipSpeed + 1) / 2)
    let totalKickoutTime :=
      kickoutTransitionTime + args.renderProps.kickoutRotation
    let twistAtKickout := kickoutTransitionTime / totalKickoutTime * currentTwist
    let st := addFrameDelta args.rotationMultiplier thisTransitionRotation
      (some twistAtKickout) Position.Straight.str ((flipSpeed + 1) / 2) st
    let st := addFrameDelta args.rotationMultiplier
      args.renderProps.kickoutRotation
      (some (currentTwist - twistAtKickout))
      (bedPositionToJoints d.endingPosition) 1 st
    (st, isLastFlip)
  else
    let st := addFrameDelta args.rotationMultiplier
      (flipFinalRotation - st.cumulativeRotation) (some currentTwist)
      (if isLastFlip = true then bedPositionToJoints d.endingPosition
       else position.str)
      flipSpeed st
    (st, isLastFlip)

/-- The `for (let flipNumber = 1; !isLastFlip; flipNumber++)` loop,
rendered with an explicit fuel bound.  The guard `isLastFlip` holds as
soon as `min k |finalRotation| ≥ finalRotation`, which is guaranteed by
`flipNumber = max 1 ⌈finalRotation⌉` (see `flipIter_isLast`), so any
fuel of at least that count yields the loop's exact behaviour. -/
def flipLoop (args : LoopArgs) : ℕ → ℕ → LoopState → LoopState
  | 0, _, st => st
  | fuel + 1, k, st =>
      let (st', isLast) := flipIter args k st
      if isLast then st' else flipLoop args fuel (k + 1) st'

/-- `makeNonFlipFrames` from `skillConverter.ts` (second revision). -/
def makeNonFlipFrames (definition : SkillDefinition)
    (incomingTwist : ℚ) : Skill :=
  let rotationMultiplier := getRotationMultiplier definition incomingTwist
  let initialRotation := startingRotation definition incomingTwist
  let startingJoints := bedPositionToJoints definition.startingPosition
  let endJoints := bedPositionToJoints definition.endingPosition
  let frameAt : String → ℚ → AthletePosition := fun pose timestamp =>
    let rotationProgress := definition.flips * timestamp
    { rotation := rotationProgress * rotationMultiplier + initialRotation
      twist := some (definition.twists.getD 0 0 * timestamp)
      joints := pose }
  let middle : List (AthletePosition × ℚ) :=
    if definition.position ≠ Position.Straight then
      [(frameAt startingJoints (4/10), 4/10),
       (frameAt definition.position.str (5/10), 5/10),
       (frameAt endJoints (6/10), 6/10)]
    else
      [(frameAt definition.position.str (5/10), 5/10)]
  let all := (frameAt startingJoints 0, (0 : ℚ)) :: middle ++
    [(frameAt endJoints 1, 1)]
  { positions := all.map Prod.fst, timestamps := all.map Prod.snd }

/-- Number of iterations the flip loop performs (the least `k ≥ 1` with
`min k |finalRotation| ≥ finalRotation`). -/
def loopFlips (finalRotation : ℚ) : ℕ := max 1 ⌈finalRotation⌉.toNat

/-- `makeSkillFrames` from `skillConverter.ts` (second revision).
`renderProps? = none` is the defaulted parameter. -/
def makeSkillFrames (definition : SkillDefinition)
    (incomingTwist : ℚ := 0)
    (renderProps? : Option RenderProperties := none) : Skill :=
  if flipNumber definition = 0 then
    makeNonFlipFrames definition incomingTwist
  else
    let rotationMultiplier := getRotationMultiplier definition incomingTwist
    let initialRotation := startingRotation definition incomingTwist
    let renderProps :=
      renderProps?.getD (getRenderPropertiesForSkill definition)
    let st0 : LoopState :=
      { cumulativeRotation := initialRotation * rotationMultiplier
        cumulativeTwist := some 0
        elapsedTime := 0
        frames :=
          [{ rotation := initialRotation
             twist := some 0
             joints := bedPositionToJoints definition.startingPosition }]
        timestamps := [0]
        previousPosition := Position.Straight }
    -- the unguarded `definition.twists[0]` read of the stall phase
    let stallTwist : Option ℚ := definition.twists.get? 0
    let st1 := addFrameDelta rotationMultiplier renderProps.stallRotation
      stallTwist Position.Straight.str 1 st0
    let finalRotation :=
      definition.flips + initialRotation * rotationMultiplier
    let args : LoopArgs :=
      { definition := definition
        renderProps := renderProps
        rotationMultiplier := rotationMultiplier
        finalRotation := finalRotation }
    let stF := flipLoop args (loopFlips finalRotation) 1 st1
    { positions := stF.frames
      timestamps := normalizeTimestamps stF.timestamps }

/-! ## Routine validation (`routineValidation.ts`) -/

/-- `isRoutineValid`: the source's indexed scan over adjacent pairs,
rendered structurally (early `return false` becomes `&&`). -/
def isRoutineValid : List SkillDefinition → Bool
  | [] => true
  | [_] => true
  | previousSkill :: currentSkill :: rest =>
      (previousSkill.endingPosition == currentSkill.startingPosition) &&
        isRoutineValid (currentSkill :: rest)

/-- The error message template of `getRoutineValidationErrors`. -/
def routineErrorMessage (previousSkill currentSkill : SkillDefinition) :
    String :=
  "\"" ++ currentSkill.name ++ "\" cannot follow \"" ++ previousSkill.name
    ++ "\" - " ++ previousSkill.name ++ " ends in "
    ++ previousSkill.endingPosition.str ++ " position " ++ "but "
    ++ currentSkill.name ++ " starts from "
    ++ currentSkill.startingPosition.str ++ " position"

/-- `getRoutineValidationErrors`: one message per violated adjacency. -/
def getRoutineValidationErrors : List SkillDefinition → List String
  | [] => []
  | [_] => []
  | previousSkill :: currentSkill :: rest =>
      (if previousSkill.endingPosition ≠ currentSkill.startingPosition then
        [routineErrorMessage previousSkill currentSkill]
      else []) ++ getRoutineValidationErrors (currentSkill :: rest)

/-! ### Random routine generation

`Math.random()` is modelled as a stream `rand : ℕ → ℚ` of draws from
`[0,1)`, consumed in call order (the counter `t` is threaded through).
`Math.floor(r * length)` is `randIndex`.  For a draw outside `[0,1)` —
impossible for `Math.random` — the out-of-range index falls back to the
list head via `getD`'s default. -/

/-- `Math.floor(r * len)` as a list index. -/
def randIndex (r : ℚ) (len : ℕ) : ℕ := (⌊r * (len : ℚ)⌋).toNat

/-- `applyRandomPosition` from `routineValidation.ts`; consumes one draw
exactly when `possiblePositions` is present and non-empty. -/
def applyRandomPosition (rand : ℕ → ℚ) (t : ℕ)
    (skill : SkillDefinition) : SkillDefinition × ℕ :=
  match skill.possiblePositions with
  | some possible =>
      if possible.length > 0 then
        let randomPosition :=
          possible.getD (randIndex (rand t) possible.length) skill.position
        ({ skill with position := randomPosition }, t + 1)
      else (skill, t)
  | none => (skill, t)

/-- The `while (routine.length < maxSkills)` loop of
`generateValidRandomRoutine`.  The fuel starts at the pool size; every
iteration removes at least the chosen skill's name from the pool, so the
loop can never run longer than that, and at zero fuel the pool is empty
and the source loop would stop too (no compatible skills). -/
def buildRandomRoutine (rand : ℕ → ℚ) (maxSkills : ℕ) :
    ℕ → ℕ → List SkillDefinition → List SkillDefinition →
      List SkillDefinition
  | 0, _, routine, _ => routine
  | fuel + 1, t, routine, availableSkills =>
      if routine.length < maxSkills then
        let lastSkill := routine.getLastD defaultSkill
        let requiredStartingPosition := lastSkill.endingPosition
        let compatibleSkills := availableSkills.filter
          (fun skill => skill.startingPosition == requiredStartingPosition)
        if compatibleSkills.length = 0 then routine
        else
          let nextSkill := compatibleSkills.getD
            (randIndex (rand t) compatibleSkills.length)
            (compatibleSkills.headD defaultSkill)
          let (nextWithPosition, t') :=
            applyRandomPosition rand (t + 1) nextSkill
          let routine := routine ++ [nextWithPosition]
          let availableSkills := availableSkills.filter
            (fun skill => skill.name ≠ nextSkill.name)
          if availableSkills.length = 0 then routine
          else buildRandomRoutine rand maxSkills fuel t' routine
            availableSkills
      else routine

/-- `generateValidRandomRoutine` from `routineValidation.ts`. -/
def generateValidRandomRoutine (rand : ℕ → ℚ)
    (skillDefinitions : List SkillDefinition) (maxSkills : ℕ) :
    List SkillDefinition :=
  if skillDefinitions.length = 0 then []
  else
    let availableSkills := skillDefinitions
    let standingSkills := availableSkills.filter
      (fun skill => skill.startingPosition == BedPosition.Standing)
    let (first, t) :=
      if standingSkills.length = 0 then
        let firstSkill := availableSkills.getD
          (randIndex (rand 0) availableSkills.length)
          (availableSkills.headD defaultSkill)
        applyRandomPosition rand 1 firstSkill
      else
        let firstSkill := standingSkills.getD
          (randIndex (rand 0) standingSkills.length)
          (standingSkills.headD defaultSkill)
        applyRandomPosition rand 1 firstSkill
    buildRandomRoutine rand maxSkills availableSkills.length t [first]
      availableSkills

/-! ## Requirement rule engine (`requirementValidation.ts`)

Each combinator of `COMMON_VALIDATORS` is a factory returning
`{id, description, validator}`.  The combinators the claims exercise are
embedded; counts are natural numbers and thresholds rationals, matching
their uses in the source's requirement tables. -/

structure RoutineRule where
  id : String
  description : String
  validator : List SkillDefinition → Bool

/-- Plural suffix used by the descriptions (`count !== 1 ? "s" : ""`). -/
def plural (count : ℕ) : String := if count ≠ 1 then "s" else ""

namespace COMMON_VALIDATORS

def minSkills (count : ℕ) : RoutineRule :=
  { id := "min-skills-" ++ toString count
    description := "At least " ++ toString count ++ " skill" ++ plural count
    validator := fun routine => routine.length ≥ count }

def maxSkills (count : ℕ) : RoutineRule :=
  { id := "max-skills-" ++ toString count
    description := "No more than " ++ toString count ++ " skill"
      ++ plural count
    validator := fun routine => routine.length ≤ count }

def exactSkills (count : ℕ) : RoutineRule :=
  { id := "exact-skills-" ++ toString count
    description := "Exactly " ++ toString count ++ " skill" ++ plural count
    validator := fun routine => routine.length == count }

def minFlips (flips : ℚ) : RoutineRule :=
  { id := "min-flips-" ++ toString flips
    description := "At least one skill with " ++ toString flips ++ "+ flip"
      ++ (if flips ≠ 1 then "s" else "")
    validator := fun routine =>
      routine.any (fun skill => skill.flips ≥ flips) }

/-- `Math.max(...skill.twists)` of an empty array is `-Infinity`, which
never reaches a finite threshold; hence `List.max?` with `none ↦ false`. -/
def minTwists (twists : ℚ) : RoutineRule :=
  { id := "min-twists-" ++ toString twists
    description := "At least one skill with " ++ toString twists ++ "+ twist"
      ++ (if twists ≠ 1 then "s" else "")
    validator := fun routine =>
      routine.any (fun skill =>
        match skill.twists.max? with
        | some m => m ≥ twists
        | none => false) }

def startPosition (position : String) : RoutineRule :=
  { id := "start-position-" ++ position
    description := "Must start from " ++ position ++ " position"
    validator := fun routine =>
      decide (routine.length > 0) &&
        ((routine.headD defaultSkill).startingPosition.str == position) }

def endPosition (position : String) : RoutineRule :=
  { id := "end-position-" ++ position
    description := "Must end in " ++ position ++ " position"
    validator := fun routine =>
      decide (routine.length > 0) &&
        ((routine.getLastD defaultSkill).endingPosition.str == position) }

/-- `includeSkill(name, position?)`; `position = "Free"` (or absent)
accepts any body position. -/
def includeSkill (skillName : String) (position : Option String) :
    RoutineRule :=
  { id := "include-skill-" ++ skillName ++
      (match position with | some p => "-" ++ p | none => "")
    description := "Must include \"" ++ skillName ++ "\""
    validator := fun routine =>
      routine.any (fun skill =>
        skill.name == skillName &&
          (position.isNone || position == some "Free" ||
            some skill.position.str == position)) }

/-- The inner name/position match of `includesSequence` at `startIdx`. -/
def sequenceMatchesAt (skillNames : List String) (positions : List String)
    (routine : List SkillDefinition) (startIdx : ℕ) : Bool :=
  (List.range skillNames.length).all (fun seqIdx =>
    let routineSkill := routine.getD (startIdx + seqIdx) defaultSkill
    let expectedName := skillNames.getD seqIdx ""
    let expectedPosition := positions.getD seqIdx ""
    routineSkill.name == expectedName &&
      (expectedPosition == "Free" ||
        routineSkill.position.str == expectedPosition))

/-- `includesSequence(names, positions)`: sliding-window scan for a
contiguous match.  The JS loop bound `startIdx <= routine.length -
names.length` is a signed comparison, so a routine shorter than the
sequence runs zero iterations. -/
def includesSequence (skillNames : List String) (positions : List String) :
    RoutineRule :=
  { id := "includes-sequence-" ++ String.intercalate "-" skillNames
    description := "Must include the consecutive sequence: "
      ++ String.intercalate " -> " skillNames
    validator := fun routine =>
      if skillNames.length ≠ positions.length then false
      else if skillNames.length ≤ routine.length then
        (List.range (routine.length - skillNames.length + 1)).any
          (sequenceMatchesAt skillNames positions routine)
      else false }

def skillAtIndex (index : ℕ) (skillName : String)
    (position : Option String) : RoutineRule :=
  { id := "skill-at-index-" ++ toString index ++ "-" ++ skillName ++
      (match position with | some p => "-" ++ p | none => "")
    description := "Skill " ++ toString (index + 1) ++ " must be \""
      ++ skillName ++ "\""
    validator := fun routine =>
      if routine.length ≤ index then false
      else
        let skill := routine.getD index defaultSkill
        skill.name == skillName &&
          (position.isNone || some skill.position.str == position ||
            position == some "Free") }

def noDuplicates : RoutineRule :=
  { id := "no-duplicates"
    description := "No duplicate skills allowed"
    validator := fun routine =>
      let skillCombinations := routine.map
        (fun skill => skill.name ++ "-" ++ skill.position.str)
      skillCombinations.length == skillCombinations.dedup.length }

end COMMON_VALIDATORS

/-- The "Front Flip" of the spec's end-to-end scenario. -/
def frontFlip : SkillDefinition :=
  { name := "Front Flip"
    startingPosition := .Standing
    endingPosition := .Standing
    flips := 1
    twists := [0, 0]
    position := .Tuck }

/-! ## Claim C5 -/

/-- The position sub-score as the claim words it: 0 for Tuck, 0 when the
skill has *exactly 1 flip* (`flips = 1`) combined with a nonzero twist,
otherwise `⌊flips⌋ × 0.1`. -/
def positionScoreClaimed (skill : SkillDefinition) : ℚ :=
  if skill.position = Position.Tuck then 0
  else if skill.flips = 1 ∧ totalTwists skill ≠ 0 then 0
  else (⌊skill.flips⌋ : ℚ) * (1/10)

/-- The position sub-score as amended: the "exactly 1 flip" test is on
the completed flips `⌊flips⌋`, as the code computes it. -/
def positionScoreAmended (skill : SkillDefinition) : ℚ :=
  if skill.position = Position.Tuck then 0
  else if ⌊skill.flips⌋ = 1 ∧ totalTwists skill ≠ 0 then 0
  else (⌊skill.flips⌋ : ℚ) * (1/10)

/-- A 1¾ front with a half twist, in Straight: 1 completed flip. -/
def barrelSkill : SkillDefinition :=
  { name := "1 3/4 twisting"
    startingPosition := .Standing
    endingPosition := .Back
    flips := 7/4
    twists := [1/2]
    position := .Straight }

/-- String containment stated on the character lists. -/
def containsStr (hay needle : String) : Prop :=
  ∃ a b : List Char, hay.data = a ++ needle.data ++ b

/-- The violated adjacencies of a routine, as ordered pairs. -/
def violatedPairs (routine : List SkillDefinition) :
    List (SkillDefinition × SkillDefinition) :=
  (routine.zip routine.tail).filter
    (fun pc => pc.1.endingPosition ≠ pc.2.startingPosition)

/-! ## Converter loop infrastructure -/

/-- The flip count adjusted by the starting-position offset, as both
`flipNumber` and the converter's `finalRotation` compute it. -/
def adjustedRotation (d : SkillDefinition) : ℚ :=
  d.flips + startingPositionRotations d.startingPosition *
    (if d.isBackSkill then -1 else 1)

/-- The loop arguments `makeSkillFrames` passes to the flip loop. -/
def convArgs (d : SkillDefinition) (t : ℚ)
    (rp? : Option RenderProperties) : LoopArgs :=
  { definition := d
    renderProps := rp?.getD (getRenderPropertiesForSkill d)
    rotationMultiplier := getRotationMultiplier d t
    finalRotation := adjustedRotation d }

/-- The loop state after the initial frame and the stall frame. -/
def convInit (d : SkillDefinition) (t : ℚ)
    (rp? : Option RenderProperties) : LoopState :=
  addFrameDelta (getRotationMultiplier d t)
    (rp?.getD (getRenderPropertiesForSkill d)).stallRotation
    (d.twists.get? 0) Position.Straight.str 1
    { cumulativeRotation := startingPositionRotations d.startingPosition *
        (if d.isBackSkill then -1 else 1)
      cumulativeTwist := some 0
      elapsedTime := 0
      frames := [{ rotation := startingRotation d t
                   twist := some 0
                   joints := bedPositionToJoints d.startingPosition }]
      timestamps := [0]
      previousPosition := Position.Straight }

/-! ## Claim C4 -/

/-- Default frame for total last-element access. -/
def junkFrame : AthletePosition :=
  { rotation := 0, twist := some 0, joints := "" }

/-- A single front flip whose twist list has a spurious third slot. -/
def overTwisted : SkillDefinition :=
  { name := "over-twisted front"
    startingPosition := .Standing
    endingPosition := .Standing
    flips := 1
    twists := [0, 0, 1]
    position := .Tuck }

/-! ## Claim C1 -/

/-- The rotation delta of the final flip-loop iteration, under derived
render properties: `flips − stallRotation` when the loop has one
iteration (`adjustedRotation ≤ 1`), else the fraction left after the
completed flips. -/
def lastFlipDelta (d : SkillDefinition) (rp : RenderProperties) : ℚ :=
  if adjustedRotation d ≤ 1 then d.flips - rp.stallRotation
  else adjustedRotation d - ((loopFlips (adjustedRotation d) : ℚ) - 1)

/-- Monotonicity bookkeeping for the growing timestamp list. -/
def StOk (st : LoopState) : Prop :=
  st.timestamps ≠ [] ∧
    List.Chain' (· ≤ ·) st.timestamps ∧
    st.timestamps.getLastD 0 = st.elapsedTime ∧
    st.timestamps.headD 0 = 0

/-- A forward 1¼ flip in Tuck ending on the feet ("Puck 1.25"): a
well-formed skill whose final flip is shorter than the kickout budget. -/
def flip125 : SkillDefinition :=
  { name := "Puck 1.25"
    startingPosition := .Standing
    endingPosition := .Standing
    flips := 5/4
    twists := [0, 0, 0]
    position := .Tuck }

/-! ## Helper lemmas -/

/-- A successful `List.lookup` comes from a matching entry of the list. -/
lemma lookup_mem {l : List (String × ℚ)} {k : String} {v : ℚ}
    (h : l.lookup k = some v) : (k, v) ∈ l := by
  induction l with
  | nil => simp [List.lookup] at h
  | cons kv rest ih =>
      obtain ⟨a, b⟩ := kv
      by_cases hak : k == a
      · simp only [List.lookup, hak] at h
        obtain rfl : b = v := by simpa using h
        obtain rfl : k = a := by simpa using hak
        exact List.mem_cons_self _ _
      · simp only [List.lookup, Bool.not_eq_true] at hak
        simp only [List.lookup, hak] at h
        exact List.mem_cons_of_mem _ (ih h)

/-- Under a consistent cache, `calculateDifficultyScore` returns exactly
the pure score, for any cache contents. -/
lemma calculateDifficultyScore_eq_pure (minD : ℚ) (cache : DifficultyCache)
    (skill : SkillDefinition) (hwf : WFCache minD cache) :
    (calculateDifficultyScore minD cache skill).1 =
      difficultyScorePure minD skill := by
  unfold calculateDifficultyScore difficultyScorePure
  by_cases h : skill.flips = 0 ∧ totalTwists skill = 0 ∧
      skill.position = Position.Straight
  · simp [h]
  · rw [if_neg h, if_neg h]
    rcases hcase : cache.lookup (getSkillCacheKey skill) with _ | v
    · simp only [hcase]
    · simp only [hcase]
      have hmem := lookup_mem hcase
      have hv := hwf _ hmem skill rfl
      simp only at hv
      rw [hv]
      simp [difficultyScorePure, if_neg h]

/-! ## Claim C2 -/

/-- C2: for every SkillDefinition with flips = 0, totalTwists = 0 and
position = Straight, `calculateDifficultyScore` returns exactly 0 (for
any cache contents, before any lookup); for every other SkillDefinition
it returns at least the configured `MIN_DIFFICULTY` constant (modelled
as the parameter `minD` since the constants module is not among the
sources), for any consistent cache. -/
theorem C2_difficulty_zero_and_floor (minD : ℚ) (cache : DifficultyCache)
    (skill : SkillDefinition) (hwf : WFCache minD cache) :
    ((skill.flips = 0 ∧ totalTwists skill = 0 ∧
        skill.position = Position.Straight) →
      (calculateDifficultyScore minD cache skill).1 = 0) ∧
    (¬ (skill.flips = 0 ∧ totalTwists skill = 0 ∧
        skill.position = Position.Straight) →
      minD ≤ (calculateDifficultyScore minD cache skill).1) := by
  constructor
  · intro h
    simp [calculateDifficultyScore, h]
  · intro h
    rw [calculateDifficultyScore_eq_pure minD cache skill hwf]
    unfold difficultyScorePure
    rw [if_neg h]
    exact le_max_right _ _

/-- Witness for C2: the empty cache is consistent and a front flip
scores at least a `MIN_DIFFICULTY` of 0.3. -/
theorem C2_difficulty_zero_and_floor_witness :
    WFCache (3/10) ([] : DifficultyCache) ∧
      (3/10 : ℚ) ≤ (calculateDifficultyScore (3/10) [] frontFlip).1 := by
  have hwf : WFCache (3/10) ([] : DifficultyCache) := by
    intro kv hkv
    exact absurd hkv (List.not_mem_nil kv)
  exact ⟨hwf,
    (C2_difficulty_zero_and_floor (3/10) [] frontFlip hwf).2 (by decide)⟩

/-- C5 counterexample: for a skill with `flips = 7/4` and a half twist
in Straight, the code's position score is 0 (it zeroes the score when
`⌊flips⌋ = 1` with a twist), while the claim's reading ("exactly 1
flip", i.e. `flips = 1`) prescribes `⌊7/4⌋ × 0.1 = 0.1`. -/
theorem C5_position_score_counterexample :
    positionScore barrelSkill = 0 ∧
      positionScoreClaimed barrelSkill = 1/10 ∧
      positionScore barrelSkill ≠ positionScoreClaimed barrelSkill := by
  have h1 : positionScore barrelSkill = 0 := by
    norm_num [positionScore, barrelSkill, totalTwists]
  have h2 : positionScoreClaimed barrelSkill = 1/10 := by
    rw [positionScoreClaimed]
    rw [if_neg (by decide), if_neg (by norm_num [barrelSkill, totalTwists])]
    norm_num [barrelSkill]
  refine ⟨h1, h2, ?_⟩
  rw [h1, h2]
  norm_num

/-- C5 amended: the position sub-score is 0 for Tuck, 0 when the skill
has exactly one *completed* flip (`⌊flips⌋ = 1`) combined with a nonzero
total twist, and `⌊flips⌋ × 0.1` otherwise. -/
theorem C5_position_score_amended (skill : SkillDefinition) :
    positionScore skill = positionScoreAmended skill := rfl

/-! ## Claim C10 -/

/-- The pure score formula only reads `flips`, `twists`, `position` and
`isBackSkill`. -/
lemma difficultyScorePure_eq_of_fields (minD : ℚ)
    (s₁ s₂ : SkillDefinition) (hf : s₁.flips = s₂.flips)
    (ht : s₁.twists = s₂.twists) (hp : s₁.position = s₂.position)
    (hb : s₁.isBackSkill = s₂.isBackSkill) :
    difficultyScorePure minD s₁ = difficultyScorePure minD s₂ := by
  have htt : totalTwists s₁ = totalTwists s₂ := by
    unfold totalTwists; rw [ht]
  have hr : rotationScore s₁ = rotationScore s₂ := by
    unfold rotationScore; rw [hf, hb]
  have htw : twistScore s₁ = twistScore s₂ := by
    unfold twistScore; rw [htt, hf]
  have hps : positionScore s₁ = positionScore s₂ := by
    unfold positionScore; rw [htt, hf, hp]
  unfold difficultyScorePure
  rw [htt, hf, hp, hr, htw, hps]

/-- C10: `calculateDifficultyScore` depends only on the `flips`,
`twists`, `position` and `isBackSkill` fields — two skills agreeing on
those four fields score equally regardless of their other fields and
regardless of the (consistent) caches the two calls run against. -/
theorem C10_score_depends_only_on_fields (minD : ℚ)
    (cache₁ cache₂ : DifficultyCache) (s₁ s₂ : SkillDefinition)
    (hwf₁ : WFCache minD cache₁) (hwf₂ : WFCache minD cache₂)
    (hf : s₁.flips = s₂.flips) (ht : s₁.twists = s₂.twists)
    (hp : s₁.position = s₂.position)
    (hb : s₁.isBackSkill = s₂.isBackSkill) :
    (calculateDifficultyScore minD cache₁ s₁).1 =
      (calculateDifficultyScore minD cache₂ s₂).1 := by
  rw [calculateDifficultyScore_eq_pure minD cache₁ s₁ hwf₁,
    calculateDifficultyScore_eq_pure minD cache₂ s₂ hwf₂]
  exact difficultyScorePure_eq_of_fields minD s₁ s₂ hf ht hp hb

/-- Witness for C10: a renamed front flip with different bed positions
scores the same as the original against different consistent caches. -/
theorem C10_score_depends_only_on_fields_witness :
    (calculateDifficultyScore (3/10) [] frontFlip).1 =
      (calculateDifficultyScore (3/10)
        [("unrelated", 7)]
        { frontFlip with
            name := "Renamed"
            startingPosition := .Seated
            endingPosition := .Seated }).1 := by
  have hwf₁ : WFCache (3/10) ([] : DifficultyCache) := by
    intro kv hkv
    exact absurd hkv (List.not_mem_nil kv)
  have hwf₂ : WFCache (3/10) [("unrelated", 7)] := by
    intro kv hkv s hs
    have : kv = ("unrelated", 7) := by simpa using hkv
    subst this
    exfalso
    revert hs
    simp only [getSkillCacheKey]
    intro hs
    have := congrArg (fun str => str.data.contains '-') hs
    revert this
    cases hpos : s.position <;> cases hb : s.isBackSkill <;>
      simp [Position.str, String.data_append]
  exact C10_score_depends_only_on_fields (3/10) _ _ _ _ hwf₁ hwf₂
    rfl rfl rfl rfl

/-! ## Claim C3 -/

/-- C3: `makeSkillFrames` is deterministic — two calls with identical
definition, incoming cumulative twist and render-properties arguments
produce identical (deep-equal) `Skill` values.  The embedding is a pure
function of its arguments: the source reads no clock, random source or
mutable global. -/
theorem C3_makeSkillFrames_deterministic
    (d₁ d₂ : SkillDefinition) (t₁ t₂ : ℚ)
    (rp₁ rp₂ : Option RenderProperties)
    (hd : d₁ = d₂) (ht : t₁ = t₂) (hrp : rp₁ = rp₂) :
    makeSkillFrames d₁ t₁ rp₁ = makeSkillFrames d₂ t₂ rp₂ := by
  rw [hd, ht, hrp]

/-- Witness for C3 at the front flip. -/
theorem C3_makeSkillFrames_deterministic_witness :
    makeSkillFrames frontFlip 0 none = makeSkillFrames frontFlip 0 none :=
  C3_makeSkillFrames_deterministic frontFlip frontFlip 0 0 none none
    rfl rfl rfl

/-! ## Claim C8 -/

/-- C8: every embedded rule-engine validator is a total function, and on
the empty routine the vacuous `noDuplicates` rule passes while every
content-expecting rule fails: `minSkills n` for every `n ≥ 1`, and every
parameterization of `minFlips`, `minTwists`, `startPosition`,
`endPosition`, `includeSkill`, `skillAtIndex`, and `includesSequence`
with a non-empty name list. -/
theorem C8_validators_on_empty_routine :
    COMMON_VALIDATORS.noDuplicates.validator [] = true ∧
    (∀ n : ℕ, 1 ≤ n → (COMMON_VALIDATORS.minSkills n).validator [] = false) ∧
    (∀ f : ℚ, (COMMON_VALIDATORS.minFlips f).validator [] = false) ∧
    (∀ tw : ℚ, (COMMON_VALIDATORS.minTwists tw).validator [] = false) ∧
    (∀ p : String,
      (COMMON_VALIDATORS.startPosition p).validator [] = false) ∧
    (∀ p : String, (COMMON_VALIDATORS.endPosition p).validator [] = false) ∧
    (∀ (nm : String) (pos : Option String),
      (COMMON_VALIDATORS.includeSkill nm pos).validator [] = false) ∧
    (∀ (i : ℕ) (nm : String) (pos : Option String),
      (COMMON_VALIDATORS.skillAtIndex i nm pos).validator [] = false) ∧
    (∀ (names positions : List String), names ≠ [] →
      (COMMON_VALIDATORS.includesSequence names positions).validator []
        = false) := by
  refine ⟨rfl, ?_, ?_, ?_, ?_, ?_, ?_, ?_, ?_⟩
  · intro n hn
    simp [COMMON_VALIDATORS.minSkills]
    omega
  · intro f
    simp [COMMON_VALIDATORS.minFlips]
  · intro tw
    simp [COMMON_VALIDATORS.minTwists]
  · intro p
    simp [COMMON_VALIDATORS.startPosition]
  · intro p
    simp [COMMON_VALIDATORS.endPosition]
  · intro nm pos
    simp [COMMON_VALIDATORS.includeSkill]
  · intro i nm pos
    simp [COMMON_VALIDATORS.skillAtIndex]
  · intro names positions hne
    simp only [COMMON_VALIDATORS.includesSequence]
    by_cases hlen : names.length ≠ positions.length
    · simp [hlen]
    · have hpos : ¬ names.length ≤ ([] : List SkillDefinition).length := by
        simp only [List.length_nil, Nat.le_zero, List.length_eq_zero]
        exact hne
      simp [hlen, hpos, hne]

/-- Witness for C8 at concrete parameters. -/
theorem C8_validators_on_empty_routine_witness :
    (1 ≤ 3 ∧ ((["Barani"] : List String) ≠ [])) ∧
      (COMMON_VALIDATORS.minSkills 3).validator [] = false ∧
      (COMMON_VALIDATORS.includesSequence ["Barani"] ["Free"]).validator []
        = false := by
  refine ⟨⟨by decide, by decide⟩, ?_, ?_⟩
  · exact (C8_validators_on_empty_routine.2.1) 3 (by decide)
  · exact (C8_validators_on_empty_routine.2.2.2.2.2.2.2.2) ["Barani"]
      ["Free"] (by decide)

/-! ## Claim C6 -/

/-- `isRoutineValid` is the adjacency chain condition. -/
lemma isRoutineValid_iff_chain (routine : List SkillDefinition) :
    isRoutineValid routine = true ↔
      List.Chain'
        (fun p c => p.endingPosition = c.startingPosition) routine := by
  induction routine with
  | nil => simp [isRoutineValid]
  | cons a rest ih =>
      cases rest with
      | nil => simp [isRoutineValid]
      | cons b rest' =>
          rw [List.chain'_cons, ← ih]
          simp [isRoutineValid]

lemma getRoutineValidationErrors_eq (routine : List SkillDefinition) :
    getRoutineValidationErrors routine =
      (violatedPairs routine).map
        (fun pc => routineErrorMessage pc.1 pc.2) := by
  induction routine with
  | nil => simp [getRoutineValidationErrors, violatedPairs]
  | cons a rest ih =>
      cases rest with
      | nil => simp [getRoutineValidationErrors, violatedPairs]
      | cons b rest' =>
          simp only [getRoutineValidationErrors, violatedPairs,
            List.tail_cons, List.zip_cons_cons, List.filter_cons]
          by_cases hab : a.endingPosition = b.startingPosition
          · simp only [violatedPairs, List.tail_cons] at ih
            simp [hab, ih]
          · simp only [violatedPairs, List.tail_cons] at ih
            simp [hab, ih]

/-- C6: `isRoutineValid` holds iff every adjacent pair chains
(`previous.endingPosition = current.startingPosition`), vacuously for
routines of length at most 1; `getRoutineValidationErrors` produces
exactly the list of one message per violated adjacency, in order; and
each message names both skills and both bed positions involved. -/
theorem C6_routine_validation (routine : List SkillDefinition) :
    (isRoutineValid routine = true ↔
      ∀ (i : ℕ) (h : i + 1 < routine.length),
        (routine.get ⟨i, by omega⟩).endingPosition =
          (routine.get ⟨i + 1, h⟩).startingPosition) ∧
    (routine.length ≤ 1 → isRoutineValid routine = true) ∧
    getRoutineValidationErrors routine =
      (violatedPairs routine).map
        (fun pc => routineErrorMessage pc.1 pc.2) ∧
    (∀ p c : SkillDefinition,
      containsStr (routineErrorMessage p c) p.name ∧
      containsStr (routineErrorMessage p c) c.name ∧
      containsStr (routineErrorMessage p c) p.endingPosition.str ∧
      containsStr (routineErrorMessage p c) c.startingPosition.str) := by
  refine ⟨?_, ?_, getRoutineValidationErrors_eq routine, ?_⟩
  · rw [isRoutineValid_iff_chain, List.chain'_iff_get]
    constructor
    · intro h i hi
      exact h i (by omega)
    · intro h i hi
      exact h i (by omega)
  · intro hlen
    rcases routine with _ | ⟨a, _ | ⟨b, rest⟩⟩
    · rfl
    · rfl
    · simp at hlen
  · intro p c
    refine ⟨⟨("\"" ++ c.name ++ "\" cannot follow \"" : String).data,
        ("\" - " ++ p.name ++ " ends in " ++ p.endingPosition.str
          ++ " position " ++ "but " ++ c.name ++ " starts from "
          ++ c.startingPosition.str ++ " position").data, ?_⟩,
      ⟨("\"" : String).data,
        ("\" cannot follow \"" ++ p.name ++ "\" - " ++ p.name ++ " ends in "
          ++ p.endingPosition.str ++ " position " ++ "but " ++ c.name
          ++ " starts from " ++ c.startingPosition.str
          ++ " position").data, ?_⟩,
      ⟨("\"" ++ c.name ++ "\" cannot follow \"" ++ p.name ++ "\" - "
          ++ p.name ++ " ends in " : String).data,
        (" position " ++ "but " ++ c.name ++ " starts from "
          ++ c.startingPosition.str ++ " position").data, ?_⟩,
      ⟨("\"" ++ c.name ++ "\" cannot follow \"" ++ p.name ++ "\" - "
          ++ p.name ++ " ends in " ++ p.endingPosition.str ++ " position "
          ++ "but " ++ c.name ++ " starts from " : String).data,
        (" position" : String).data, ?_⟩⟩ <;>
      simp [routineErrorMessage, String.data_append]

/-! ## Claim C7 -/

/-- `applyRandomPosition` only rewrites the body `position`; bed
positions are untouched. -/
lemma applyRandomPosition_positions (rand : ℕ → ℚ) (t : ℕ)
    (skill : SkillDefinition) :
    (applyRandomPosition rand t skill).1.startingPosition =
        skill.startingPosition ∧
      (applyRandomPosition rand t skill).1.endingPosition =
        skill.endingPosition := by
  unfold applyRandomPosition
  rcases skill.possiblePositions with _ | possible
  · exact ⟨rfl, rfl⟩
  · dsimp only
    split
    · exact ⟨rfl, rfl⟩
    · exact ⟨rfl, rfl⟩

/-- Picking from a non-empty list with the head as fallback stays in the
list, whatever the index. -/
lemma getD_headD_mem {α : Type} (l : List α) (h : l ≠ []) (i : ℕ) (d : α) :
    l.getD i (l.headD d) ∈ l := by
  by_cases hi : i < l.length
  · rw [List.getD_eq_getElem l _ hi]
    exact List.getElem_mem hi
  · rw [List.getD_eq_default l _ (by omega)]
    rcases l with _ | ⟨a, rest⟩
    · exact absurd rfl h
    · exact List.mem_cons_self a rest

/-- Appending a compatible element preserves the adjacency chain. -/
lemma chain'_append_singleton {α : Type} {R : α → α → Prop}
    {l : List α} {x : α} (h : List.Chain' R l)
    (hlast : ∀ y ∈ l.getLast?, R y x) : List.Chain' R (l ++ [x]) := by
  rw [List.chain'_append]
  refine ⟨h, List.chain'_singleton x, ?_⟩
  intro y hy z hz
  simp only [List.head?_cons, Option.mem_def, Option.some.injEq] at hz
  subst hz
  exact hlast y hy

/-- The generator loop invariant: the routine stays non-empty, chained
on bed positions, and within the requested bound. -/
lemma buildRandomRoutine_spec (rand : ℕ → ℚ) (maxSkills : ℕ) :
    ∀ (fuel t : ℕ) (routine availableSkills : List SkillDefinition),
      routine ≠ [] →
      List.Chain' (fun p c => p.endingPosition = c.startingPosition)
        routine →
      routine.length ≤ max maxSkills 1 →
      List.Chain' (fun p c => p.endingPosition = c.startingPosition)
          (buildRandomRoutine rand maxSkills fuel t routine
            availableSkills) ∧
        (buildRandomRoutine rand maxSkills fuel t routine
          availableSkills).length ≤ max maxSkills 1 := by
  intro fuel
  induction fuel with
  | zero => intro t routine avail _ hchain hlen; exact ⟨hchain, hlen⟩
  | succ fuel ih =>
      intro t routine avail hne hchain hlen
      simp only [buildRandomRoutine]
      by_cases hshort : routine.length < maxSkills
      · rw [if_pos hshort]
        set lastSkill := routine.getLastD defaultSkill with hlast
        set compatibleSkills := avail.filter
          (fun skill =>
            skill.startingPosition == lastSkill.endingPosition) with hcomp
        by_cases hc0 : compatibleSkills.length = 0
        · rw [if_pos hc0]
          exact ⟨hchain, hlen⟩
        · rw [if_neg hc0]
          have hcne : compatibleSkills ≠ [] := by
            intro habs
            rw [habs] at hc0
            exact hc0 rfl
          set nextSkill := compatibleSkills.getD
            (randIndex (rand t) compatibleSkills.length)
            (compatibleSkills.headD defaultSkill) with hnext
          have hmem : nextSkill ∈ compatibleSkills :=
            getD_headD_mem compatibleSkills hcne _ _
          have hstart : nextSkill.startingPosition =
              lastSkill.endingPosition := by
            have := List.of_mem_filter hmem
            simpa using this
          set nextPicked := applyRandomPosition rand (t + 1) nextSkill
            with hpicked
          have hlink : ∀ y ∈ routine.getLast?,
              y.endingPosition = nextPicked.1.startingPosition := by
            intro y hy
            have hyv : y = lastSkill := by
              rw [hlast, List.getLastD_eq_getLast?]
              rw [Option.mem_def] at hy
              rw [hy]
              rfl
            rw [hyv, (applyRandomPosition_positions rand (t + 1)
              nextSkill).1, hstart]
          have hchain' : List.Chain'
              (fun p c => p.endingPosition = c.startingPosition)
              (routine ++ [nextPicked.1]) :=
            chain'_append_singleton hchain hlink
          have hlen' : (routine ++ [nextPicked.1]).length ≤
              max maxSkills 1 := by
            rw [List.length_append]
            simp only [List.length_singleton]
            omega
          have hne' : routine ++ [nextPicked.1] ≠ [] := by
            simp
          by_cases hav0 : List.length
              (avail.filter (fun skill => skill.name ≠ nextSkill.name)) = 0
          · rw [if_pos hav0]
            exact ⟨hchain', hlen'⟩
          · rw [if_neg hav0]
            exact ih nextPicked.2 (routine ++ [nextPicked.1]) _ hne'
              hchain' hlen'
      · rw [if_neg hshort]
        exact ⟨hchain, hlen⟩

/-- For a non-empty pool, the generator is the build loop started from
some first pick. -/
lemma generateValidRandomRoutine_eq (rand : ℕ → ℚ)
    (pool : List SkillDefinition) (n : ℕ) (hp : pool.length ≠ 0) :
    ∃ (first : SkillDefinition) (t : ℕ),
      generateValidRandomRoutine rand pool n =
        buildRandomRoutine rand n pool.length t [first] pool := by
  unfold generateValidRandomRoutine
  rw [if_neg hp]
  dsimp only
  split
  · exact ⟨_, _, rfl⟩
  · exact ⟨_, _, rfl⟩

/-- C7: for every draw stream, every pool and every bound `n`,
`generateValidRandomRoutine` returns a routine that either has length at
most `n` with every adjacent pair satisfying position continuity, or has
length at most 1. -/
theorem C7_generator_valid (rand : ℕ → ℚ)
    (pool : List SkillDefinition) (n : ℕ) :
    ((generateValidRandomRoutine rand pool n).length ≤ n ∧
      ∀ i : ℕ, i + 1 < (generateValidRandomRoutine rand pool n).length →
        ((generateValidRandomRoutine rand pool n).getD i
            defaultSkill).endingPosition =
          ((generateValidRandomRoutine rand pool n).getD (i + 1)
            defaultSkill).startingPosition) ∨
    (generateValidRandomRoutine rand pool n).length ≤ 1 := by
  by_cases hp : pool.length = 0
  · right
    unfold generateValidRandomRoutine
    rw [if_pos hp]
    simp
  · obtain ⟨first, t, heq⟩ := generateValidRandomRoutine_eq rand pool n hp
    have hspec := buildRandomRoutine_spec rand n pool.length t [first] pool
      (by simp) (List.chain'_singleton first) (by simp)
    by_cases hn : n = 0
    · right
      rw [heq]
      have := hspec.2
      omega
    · left
      constructor
      · rw [heq]
        have := hspec.2
        omega
      · intro i hi
        rw [heq] at hi ⊢
        have hchain := hspec.1
        rw [List.chain'_iff_get] at hchain
        have hc := hchain i (by omega)
        rw [List.getD_eq_getElem _ _ (by omega),
          List.getD_eq_getElem _ _ (by omega)]
        simpa [List.get_eq_getElem] using hc

lemma getRotationMultiplier_zero (d : SkillDefinition) :
    getRotationMultiplier d 0 = (if d.isBackSkill then -1 else 1) := by
  unfold getRotationMultiplier
  norm_num

/-- The twist-parity factor squares away: the converter's
`initialRotation * rotationMultiplier` is the starting offset times the
back-skill sign, independently of the incoming twist. -/
lemma startingRotation_mul (d : SkillDefinition) (t : ℚ) :
    startingRotation d t * getRotationMultiplier d t =
      startingPositionRotations d.startingPosition *
        (if d.isBackSkill then -1 else 1) := by
  unfold startingRotation getRotationMultiplier defaultSkill
  dsimp only
  split_ifs <;> (try contradiction) <;> ring

lemma flipNumber_eq_round (d : SkillDefinition) :
    flipNumber d = jsRound (adjustedRotation d) := by
  unfold flipNumber adjustedRotation
  rw [getRotationMultiplier_zero]

/-- On the rotating path, `makeSkillFrames` is the flip loop run from
the canonical arguments and initial state. -/
lemma makeSkillFrames_rotating (d : SkillDefinition) (t : ℚ)
    (rp? : Option RenderProperties) (h : ¬ flipNumber d = 0) :
    makeSkillFrames d t rp? =
      { positions := (flipLoop (convArgs d t rp?)
          (loopFlips (adjustedRotation d)) 1 (convInit d t rp?)).frames
        timestamps := normalizeTimestamps
          ((flipLoop (convArgs d t rp?) (loopFlips (adjustedRotation d)) 1
            (convInit d t rp?)).timestamps) } := by
  simp only [makeSkillFrames]
  rw [if_neg h]
  simp only [convArgs, convInit, adjustedRotation]
  rw [startingRotation_mul]

/-- The `isLastFlip` flag computed in iteration `k` depends only on `k`
and the final rotation. -/
lemma flipIter_isLast (args : LoopArgs) (k : ℕ) (st : LoopState) :
    (flipIter args k st).2 =
      decide (args.finalRotation ≤ min (k : ℚ) |args.finalRotation|) := by
  simp only [flipIter]
  split_ifs <;>
    · rw [decide_eq_decide]
      constructor <;> intro hle <;> linarith

/-- The loop guard triggers exactly from iteration
`loopFlips finalRotation` on. -/
lemma isLast_cond_iff (f : ℚ) (k : ℕ) (hk : 1 ≤ k) :
    (f ≤ min (k : ℚ) |f|) ↔ loopFlips f ≤ k := by
  unfold loopFlips
  rcases le_or_lt f 1 with hf | hf
  · have hl : f ≤ min (k : ℚ) |f| := by
      refine le_min ?_ (le_abs_self f)
      calc f ≤ 1 := hf
        _ ≤ (k : ℚ) := by exact_mod_cast hk
    have hr : max 1 ⌈f⌉.toNat ≤ k := by
      have h1 : ⌈f⌉ ≤ 1 := Int.ceil_le.mpr (by norm_num [hf])
      have h2 : ⌈f⌉.toNat ≤ 1 := Int.toNat_le.mpr h1
      omega
    exact iff_of_true hl hr
  · have habs : |f| = f := abs_of_pos (by linarith)
    rw [habs, min_comm]
    constructor
    · intro h
      have hfk : f ≤ (k : ℚ) := le_trans h (min_le_right _ _)
      have hck : ⌈f⌉ ≤ (k : ℤ) := Int.ceil_le.mpr (by exact_mod_cast hfk)
      have : ⌈f⌉.toNat ≤ k := Int.toNat_le.mpr hck
      omega
    · intro h
      have h1 : ⌈f⌉.toNat ≤ k := le_trans (le_max_right 1 _) h
      have h2 : ⌈f⌉ ≤ (k : ℤ) := Int.toNat_le.mp h1
      have h3 : f ≤ (k : ℚ) := le_trans (Int.le_ceil f) (by exact_mod_cast h2)
      exact le_min le_rfl h3

/-- Generic invariant scheme for the flip loop: carry an invariant
through the non-last iterations and read the conclusion off the last
one.  The fuel bound makes the guard fire before the fuel runs out. -/
lemma flipLoop_spec (args : LoopArgs) (P : ℕ → LoopState → Prop)
    (Q : LoopState → Prop)
    (hstep : ∀ k st, 1 ≤ k → k < loopFlips args.finalRotation → P k st →
      P (k + 1) (flipIter args k st).1)
    (hlast : ∀ st, P (loopFlips args.finalRotation) st →
      Q (flipIter args (loopFlips args.finalRotation) st).1) :
    ∀ fuel k st, 1 ≤ k → k ≤ loopFlips args.finalRotation →
      loopFlips args.finalRotation < k + fuel → P k st →
      Q (flipLoop args fuel k st) := by
  intro fuel
  induction fuel with
  | zero => intro k st hk1 hkK hlt _; omega
  | succ fuel ih =>
      intro k st hk1 hkK hlt hP
      rcases hiter : flipIter args k st with ⟨st', isL⟩
      rw [flipLoop, hiter]
      dsimp only
      have hisL : isL =
          decide (args.finalRotation ≤ min (k : ℚ) |args.finalRotation|) := by
        rw [← flipIter_isLast args k st, hiter]
      by_cases hK : loopFlips args.finalRotation ≤ k
      · have hkeq : k = loopFlips args.finalRotation := le_antisymm hkK hK
        have htrue : isL = true := by
          rw [hisL, decide_eq_true_eq]
          exact (isLast_cond_iff args.finalRotation k hk1).mpr hK
        rw [htrue, if_pos rfl]
        subst hkeq
        have hq := hlast st hP
        rw [hiter] at hq
        exact hq
      · have hfalse : isL = false := by
          rw [hisL]
          simp only [decide_eq_false_iff_not]
          intro hc
          exact hK ((isLast_cond_iff args.finalRotation k hk1).mp hc)
        rw [hfalse]
        simp only [Bool.false_eq_true, if_false]
        have hP' : P (k + 1) st' := by
          have hs := hstep k st hk1 (by omega) hP
          rw [hiter] at hs
          exact hs
        exact ih (k + 1) st' (by omega) (by omega) (by omega) hP'

/-! ## Claim C9 -/

lemma flipIter_len_eq (args : LoopArgs) (k : ℕ) (st : LoopState)
    (h : st.frames.length = st.timestamps.length) :
    (flipIter args k st).1.frames.length =
      (flipIter args k st).1.timestamps.length := by
  simp only [flipIter]
  split_ifs <;> simp [addFrameDelta, h]

lemma flipIter_len_ge (args : LoopArgs) (k : ℕ) (st : LoopState) :
    st.timestamps.length + 1 ≤ (flipIter args k st).1.timestamps.length := by
  simp only [flipIter]
  split_ifs <;> simp [addFrameDelta]

lemma flipLoop_len (args : LoopArgs) :
    ∀ (fuel k : ℕ) (st : LoopState),
      st.frames.length = st.timestamps.length →
      (flipLoop args fuel k st).frames.length =
          (flipLoop args fuel k st).timestamps.length ∧
        st.timestamps.length ≤ (flipLoop args fuel k st).timestamps.length := by
  intro fuel
  induction fuel with
  | zero => intro k st h; exact ⟨h, le_rfl⟩
  | succ fuel ih =>
      intro k st h
      rcases hiter : flipIter args k st with ⟨st', isL⟩
      rw [flipLoop, hiter]
      dsimp only
      have heq : st'.frames.length = st'.timestamps.length := by
        have := flipIter_len_eq args k st h
        rw [hiter] at this
        exact this
      have hge : st.timestamps.length + 1 ≤ st'.timestamps.length := by
        have := flipIter_len_ge args k st
        rw [hiter] at this
        exact this
      cases isL with
      | true =>
          rw [if_pos rfl]
          exact ⟨heq, by omega⟩
      | false =>
          rw [if_neg (by simp)]
          have := ih (k + 1) st' heq
          exact ⟨this.1, by omega⟩

/-- C9: for every definition, incoming twist and render-properties
argument, on both converter paths the produced `Skill` has positions and
timestamps arrays of equal length, with at least two entries. -/
theorem C9_frames_timestamps_aligned (d : SkillDefinition) (t : ℚ)
    (rp? : Option RenderProperties) :
    (makeSkillFrames d t rp?).positions.length =
        (makeSkillFrames d t rp?).timestamps.length ∧
      2 ≤ (makeSkillFrames d t rp?).timestamps.length := by
  by_cases h : flipNumber d = 0
  · rw [makeSkillFrames, if_pos h]
    unfold makeNonFlipFrames
    dsimp only
    split_ifs <;> simp
  · rw [makeSkillFrames_rotating d t rp? h]
    dsimp only
    have hinit : (convInit d t rp?).frames.length =
        (convInit d t rp?).timestamps.length := by
      simp [convInit, addFrameDelta]
    have hinit2 : (convInit d t rp?).timestamps.length = 2 := by
      simp [convInit, addFrameDelta]
    have hloop := flipLoop_len (convArgs d t rp?)
      (loopFlips (adjustedRotation d)) 1 (convInit d t rp?) hinit
    have hnorm : (normalizeTimestamps
        ((flipLoop (convArgs d t rp?) (loopFlips (adjustedRotation d)) 1
          (convInit d t rp?)).timestamps)).length =
        (flipLoop (convArgs d t rp?) (loopFlips (adjustedRotation d)) 1
          (convInit d t rp?)).timestamps.length := by
      unfold normalizeTimestamps
      dsimp only
      split_ifs <;> simp
    refine ⟨?_, ?_⟩
    · rw [hnorm]
      exact hloop.1
    · rw [hnorm]
      omega

/-- Witness for C9 (no hypotheses; fixes the implicit quantifiers). -/
theorem C9_frames_timestamps_aligned_witness :
    (makeSkillFrames frontFlip 0 none).positions.length =
        (makeSkillFrames frontFlip 0 none).timestamps.length ∧
      2 ≤ (makeSkillFrames frontFlip 0 none).timestamps.length :=
  C9_frames_timestamps_aligned frontFlip 0 none

lemma foldl_add_eq_sum (l : List ℚ) :
    ∀ a : ℚ, l.foldl (fun sum twist => sum + twist) a = a + l.sum := by
  induction l with
  | nil => intro a; simp
  | cons x xs ih =>
      intro a
      simp only [List.foldl_cons, List.sum_cons, ih (a + x)]
      ring

lemma totalTwists_eq_sum (d : SkillDefinition) :
    totalTwists d = d.twists.sum := by
  unfold totalTwists
  rw [foldl_add_eq_sum]
  ring

/-- Reading a list through `getD` over at least its length sums to the
list sum. -/
lemma sum_range_getD (l : List ℚ) :
    ∀ m : ℕ, l.length ≤ m →
      ((List.range m).map (fun i => l.getD i 0)).sum = l.sum := by
  induction l with
  | nil =>
      intro m _
      have : ∀ i ∈ List.range m, ([] : List ℚ).getD i 0 = 0 := by
        intro i _
        simp
      rw [List.sum_eq_zero]
      · simp
      · intro x hx
        rw [List.mem_map] at hx
        obtain ⟨i, hi, rfl⟩ := hx
        simp
  | cons a tl ih =>
      intro m hm
      rcases m with _ | m'
      · simp at hm
      · rw [List.range_succ_eq_map]
        simp only [List.map_cons, List.map_map, List.sum_cons]
        have h1 : (a :: tl).getD 0 0 = a := rfl
        have h2 : (List.map ((fun i => (a :: tl).getD i 0) ∘ Nat.succ)
            (List.range m')).sum = tl.sum := by
          have hcongr : List.map ((fun i => (a :: tl).getD i 0) ∘ Nat.succ)
              (List.range m') =
              List.map (fun i => tl.getD i 0) (List.range m') := by
            apply List.map_congr_left
            intro i _
            rfl
          rw [hcongr, ih m' (by simpa using hm)]
        rw [h1, h2]

/-- Each loop iteration adds exactly `twists[k] || 0` to the cumulative
twist (the kickout split sums back to the scheduled amount), and the
last frame it pushes records the cumulative twist. -/
lemma addFrameDelta_cumTwist (m δ : ℚ) (tw : Option ℚ) (pose : String)
    (s : ℚ) (st : LoopState) :
    (addFrameDelta m δ tw pose s st).cumulativeTwist =
      twistAdd st.cumulativeTwist tw := rfl

lemma addFrameDelta_lastFrameTwist (m δ : ℚ) (tw : Option ℚ) (pose : String)
    (s : ℚ) (st : LoopState) :
    ((addFrameDelta m δ tw pose s st).frames.getLastD junkFrame).twist =
      twistAdd st.cumulativeTwist tw := by
  simp [addFrameDelta, List.getLastD_concat]

lemma twistAdd_assoc_collapse (c : Option ℚ) (x y : ℚ) :
    twistAdd (twistAdd c (some x)) (some y) = twistAdd c (some (x + y)) := by
  rcases c with _ | a
  · rfl
  · simp only [twistAdd, Option.some.injEq]
    ring

lemma flipIter_twist (args : LoopArgs) (k : ℕ) (st : LoopState) :
    (flipIter args k st).1.cumulativeTwist =
        twistAdd st.cumulativeTwist
          (some (args.definition.twists.getD k 0)) ∧
      ((flipIter args k st).1.frames.getLastD junkFrame).twist =
        (flipIter args k st).1.cumulativeTwist := by
  simp only [flipIter]
  split_ifs <;>
    simp only [addFrameDelta_cumTwist, addFrameDelta_lastFrameTwist,
      twistAdd_assoc_collapse] <;>
    constructor <;>
    rcases st.cumulativeTwist with _ | a <;>
    simp only [twistAdd, Option.some.injEq] <;>
    ring

/-- Running the loop from iteration 1 accumulates the twists `1..K`
read through the `|| 0` guard. -/
lemma flipLoop_lastTwist (args : LoopArgs)
    (st : LoopState)
    (hinit : st.cumulativeTwist =
      some (((List.range 1).map
        (fun i => args.definition.twists.getD i 0)).sum)) :
    ((flipLoop args (loopFlips args.finalRotation) 1 st).frames.getLastD
        junkFrame).twist =
      some (((List.range (loopFlips args.finalRotation + 1)).map
        (fun i => args.definition.twists.getD i 0)).sum) := by
  have hK1 : 1 ≤ loopFlips args.finalRotation := by
    unfold loopFlips
    omega
  refine flipLoop_spec args
    (fun k stk => stk.cumulativeTwist =
      some (((List.range k).map
        (fun i => args.definition.twists.getD i 0)).sum))
    (fun stk => (stk.frames.getLastD junkFrame).twist =
      some (((List.range (loopFlips args.finalRotation + 1)).map
        (fun i => args.definition.twists.getD i 0)).sum))
    ?_ ?_ (loopFlips args.finalRotation) 1 st (le_refl 1) hK1
    (by omega) hinit
  · intro k stk _ _ hP
    have := (flipIter_twist args k stk).1
    rw [this, hP]
    simp only [twistAdd]
    rw [List.range_succ, List.map_append, List.sum_append]
    simp
  · intro stk hP
    have h1 := (flipIter_twist args (loopFlips args.finalRotation) stk).1
    have h2 := (flipIter_twist args (loopFlips args.finalRotation) stk).2
    rw [h2, h1, hP]
    simp only [twistAdd]
    rw [List.range_succ, List.map_append, List.sum_append]
    simp

/-- The last keyframe's twist, for any skill on the rotating path with a
non-empty twist list: the stall consumes `twists[0]` and the loop
consumes `twists[1..K]`. -/
lemma makeSkillFrames_lastTwist (d : SkillDefinition) (t : ℚ)
    (hrot : ¬ flipNumber d = 0) (hne : d.twists ≠ []) :
    ((makeSkillFrames d t none).positions.getLastD junkFrame).twist =
      some (((List.range (loopFlips (adjustedRotation d) + 1)).map
        (fun i => d.twists.getD i 0)).sum) := by
  rw [makeSkillFrames_rotating d t none hrot]
  dsimp only
  have hinit : (convInit d t none).cumulativeTwist =
      some (((List.range 1).map (fun i => d.twists.getD i 0)).sum) := by
    rcases htw : d.twists with _ | ⟨a, tl⟩
    · exact absurd htw hne
    · simp [convInit, addFrameDelta, twistAdd, htw, List.range_succ]
  exact flipLoop_lastTwist (convArgs d t none) (convInit d t none) hinit

/-- C4 counterexample: for `flips = 1` with `twists = [0, 0, 1]` (one
slot beyond what the converter's single flip iteration reads), the last
keyframe's twist is 0 while `totalTwists` is 1 — off by 1, far beyond
1e-2. -/
theorem C4_final_twist_counterexample :
    0 < overTwisted.flips ∧
      totalTwists overTwisted = 1 ∧
      ((makeSkillFrames overTwisted 0 none).positions.getLastD
        junkFrame).twist = some 0 ∧
      ¬ (∃ w : ℚ,
          ((makeSkillFrames overTwisted 0 none).positions.getLastD
            junkFrame).twist = some w ∧
          |w - totalTwists overTwisted| ≤ 1/100) := by
  have hrot : ¬ flipNumber overTwisted = 0 := by
    rw [flipNumber_eq_round]
    norm_num [adjustedRotation, overTwisted, startingPositionRotations,
      jsRound]
  have hK : loopFlips (adjustedRotation overTwisted) = 1 := by
    norm_num [loopFlips, adjustedRotation, overTwisted,
      startingPositionRotations]
  have hlast := makeSkillFrames_lastTwist overTwisted 0 hrot
    (by rw [show overTwisted.twists = [0, 0, 1] from rfl]; simp)
  rw [hK] at hlast
  have hsum : ((List.range 2).map
      (fun i => overTwisted.twists.getD i 0)).sum = 0 := by
    norm_num [List.range_succ, overTwisted]
  rw [hsum] at hlast
  have htot : totalTwists overTwisted = 1 := by
    norm_num [totalTwists, overTwisted]
  refine ⟨by norm_num [overTwisted], htot, hlast, ?_⟩
  rintro ⟨w, hw, hd⟩
  rw [hlast] at hw
  obtain rfl : (0 : ℚ) = w := by simpa using hw
  rw [htot] at hd
  norm_num at hd

/-- C4 amended: for every SkillDefinition with `flips > 0` that takes
the rotating path (`flipNumber ≠ 0`), whose twist list is non-empty (the
stall reads `twists[0]` unguarded) and has no entries beyond the loop's
flip iterations (`length ≤ loopFlips + 1`), the twist of the last
keyframe equals `totalTwists` exactly, hence within 1e-2. -/
theorem C4_final_twist_amended (d : SkillDefinition) (t : ℚ)
    (h0 : 0 < d.flips) (hrot : ¬ flipNumber d = 0)
    (hne : d.twists ≠ [])
    (hlen : d.twists.length ≤ loopFlips (adjustedRotation d) + 1) :
    ∃ w : ℚ,
      ((makeSkillFrames d t none).positions.getLastD junkFrame).twist =
        some w ∧ |w - totalTwists d| ≤ 1/100 := by
  refine ⟨totalTwists d, ?_, by norm_num⟩
  rw [makeSkillFrames_lastTwist d t hrot hne]
  rw [sum_range_getD d.twists (loopFlips (adjustedRotation d) + 1) hlen]
  rw [totalTwists_eq_sum]

/-- Witness for C4 at the front flip (`twists = [0, 0]`, one loop
iteration). -/
theorem C4_final_twist_amended_witness :
    (0 < frontFlip.flips ∧ ¬ flipNumber frontFlip = 0 ∧
      frontFlip.twists ≠ [] ∧
      frontFlip.twists.length ≤ loopFlips (adjustedRotation frontFlip) + 1) ∧
    ∃ w : ℚ,
      ((makeSkillFrames frontFlip 0 none).positions.getLastD
        junkFrame).twist = some w ∧
        |w - totalTwists frontFlip| ≤ 1/100 := by
  have h1 : 0 < frontFlip.flips := by norm_num [frontFlip]
  have h2 : ¬ flipNumber frontFlip = 0 := by
    rw [flipNumber_eq_round]
    norm_num [adjustedRotation, frontFlip, startingPositionRotations, jsRound]
  have h3 : frontFlip.twists ≠ [] := by
    rw [show frontFlip.twists = [0, 0] from rfl]
    simp
  have h4 : frontFlip.twists.length ≤
      loopFlips (adjustedRotation frontFlip) + 1 := by
    norm_num [loopFlips, adjustedRotation, frontFlip,
      startingPositionRotations]
  exact ⟨⟨h1, h2, h3, h4⟩, C4_final_twist_amended frontFlip 0 h1 h2 h3 h4⟩

lemma offset_abs_le (d : SkillDefinition) :
    |adjustedRotation d - d.flips| ≤ 1/4 := by
  unfold adjustedRotation
  cases d.startingPosition <;> cases hb : d.isBackSkill <;>
    simp [startingPositionRotations, hb, abs_le] <;> norm_num

lemma stall_le_quarter (d : SkillDefinition) :
    (getRenderPropertiesForSkill d).stallRotation ≤ 1/4 := by
  unfold getRenderPropertiesForSkill
  dsimp only
  split_ifs <;> norm_num

lemma stall_pos (d : SkillDefinition) :
    0 < (getRenderPropertiesForSkill d).stallRotation := by
  unfold getRenderPropertiesForSkill
  dsimp only
  split_ifs <;> norm_num

lemma kick_nonneg (d : SkillDefinition) :
    0 ≤ (getRenderPropertiesForSkill d).kickoutRotation := by
  unfold getRenderPropertiesForSkill
  dsimp only
  split_ifs <;> norm_num

lemma relativePositionSpeeds_pos (p : Position) :
    0 < relativePositionSpeeds p := by
  cases p <;> norm_num [relativePositionSpeeds]

/-- A skill on the rotating path with positive flips has
`adjustedRotation ≥ 1/2` (the rounded value is nonzero and the offset
cannot push it below −1/4). -/
lemma rotating_ge_half (d : SkillDefinition) (h0 : 0 < d.flips)
    (hrot : ¬ flipNumber d = 0) : 1/2 ≤ adjustedRotation d := by
  rw [flipNumber_eq_round] at hrot
  unfold jsRound at hrot
  have hoff := offset_abs_le d
  rw [abs_le] at hoff
  by_contra hc
  push_neg at hc
  apply hrot
  rw [Int.floor_eq_zero_iff, Set.mem_Ico]
  constructor
  · linarith [hoff.1]
  · linarith

/-- On the rotating path with positive flips, `flips` itself is at least
1/4, hence at least the derived stall rotation. -/
lemma stall_le_flips (d : SkillDefinition) (h0 : 0 < d.flips)
    (hrot : ¬ flipNumber d = 0) :
    (getRenderPropertiesForSkill d).stallRotation ≤ d.flips := by
  have h1 := rotating_ge_half d h0 hrot
  have hoff := offset_abs_le d
  rw [abs_le] at hoff
  have h2 := stall_le_quarter d
  linarith [hoff.2]

/-- `loopFlips = 1` exactly when the adjusted rotation is at most 1
(given the rotating-path lower bound). -/
lemma loopFlips_eq_one_iff (f : ℚ) (hf : 1/2 ≤ f) :
    loopFlips f = 1 ↔ f ≤ 1 := by
  unfold loopFlips
  constructor
  · intro h
    have h1 : ⌈f⌉.toNat ≤ 1 := by omega
    have h2 : ⌈f⌉ ≤ 1 := Int.toNat_le.mp h1
    calc f ≤ (⌈f⌉ : ℚ) := Int.le_ceil f
      _ ≤ 1 := by exact_mod_cast h2
  · intro h
    have h2 : ⌈f⌉ ≤ 1 := Int.ceil_le.mpr (by norm_num [h])
    have h3 : ⌈f⌉.toNat ≤ 1 := Int.toNat_le.mpr h2
    omega

/-- When the loop has at least two iterations, the final fractional flip
is positive: `⌈f⌉ − 1 < f`. -/
lemma ceil_sub_one_lt (f : ℚ) (h : 2 ≤ loopFlips f) :
    ((loopFlips f : ℚ) - 1) < f ∧ (loopFlips f : ℤ) = ⌈f⌉ := by
  unfold loopFlips at h ⊢
  have h1 : 2 ≤ ⌈f⌉.toNat := by omega
  have h2 : (2 : ℤ) ≤ ⌈f⌉ := by omega
  constructor
  · have hlt : (⌈f⌉ : ℚ) < f + 1 := Int.ceil_lt_add_one f
    have hcast : ((max 1 ⌈f⌉.toNat : ℕ) : ℤ) = ⌈f⌉ := by omega
    have hcq : ((max 1 ⌈f⌉.toNat : ℕ) : ℚ) = ((⌈f⌉ : ℤ) : ℚ) := by
      exact_mod_cast hcast
    rw [hcq]
    push_cast
    linarith
  · omega

lemma getLast?_eq_getLastD {α : Type} (l : List α) (d : α) (h : l ≠ []) :
    l.getLast? = some (l.getLastD d) := by
  rw [List.getLastD_eq_getLast?]
  rcases hl : l.getLast? with _ | a
  · rw [List.getLast?_eq_none_iff] at hl
    exact absurd hl h
  · rfl

lemma headD_append_left {α : Type} (l l2 : List α) (h : l ≠ [])
    (dflt : α) : (l ++ l2).headD dflt = l.headD dflt := by
  cases l
  · exact absurd rfl h
  · rfl

/-- A frame push with a non-negative rotation delta at a positive speed
preserves the timestamp bookkeeping and advances the clock. -/
lemma StOk_addFrameDelta {st : LoopState} (h : StOk st) {δ s : ℚ}
    (hδ : 0 ≤ δ) (hs : 0 < s) (m : ℚ) (tw : Option ℚ) (pose : String) :
    StOk (addFrameDelta m δ tw pose s st) ∧
      st.elapsedTime ≤ (addFrameDelta m δ tw pose s st).elapsedTime ∧
      (addFrameDelta m δ tw pose s st).previousPosition =
        st.previousPosition ∧
      (addFrameDelta m δ tw pose s st).cumulativeRotation =
        st.cumulativeRotation + δ := by
  obtain ⟨hne, hch, hlast, hhead⟩ := h
  have hdiv : 0 ≤ δ / s := div_nonneg hδ hs.le
  have helapsed : st.elapsedTime ≤ st.elapsedTime + δ / s := by linarith
  refine ⟨⟨by simp [addFrameDelta], ?_, ?_, ?_⟩, helapsed, rfl, rfl⟩
  · simp only [addFrameDelta]
    rw [List.chain'_append]
    refine ⟨hch, List.chain'_singleton _, ?_⟩
    intro y hy z hz
    simp only [List.head?_cons, Option.mem_def, Option.some.injEq] at hz
    subst hz
    rw [getLast?_eq_getLastD st.timestamps 0 hne] at hy
    simp only [Option.mem_def, Option.some.injEq] at hy
    rw [← hy, hlast]
    exact helapsed
  · simp [addFrameDelta, List.getLastD_concat]
  · simp only [addFrameDelta]
    rw [headD_append_left st.timestamps _ hne 0]
    exact hhead

/-- Pushing one frame that lands the cumulative rotation on `target`. -/
lemma StOk_one (st : LoopState) (h : StOk st) (m : ℚ) (tw : Option ℚ)
    (p : String) (s : ℚ) (target : ℚ) (hs : 0 < s)
    (hd : st.cumulativeRotation ≤ target) :
    StOk (addFrameDelta m (target - st.cumulativeRotation) tw p s st) ∧
      (addFrameDelta m (target - st.cumulativeRotation) tw p s
        st).cumulativeRotation = target ∧
      st.elapsedTime ≤ (addFrameDelta m (target - st.cumulativeRotation)
        tw p s st).elapsedTime ∧
      (addFrameDelta m (target - st.cumulativeRotation) tw p s
        st).previousPosition = st.previousPosition := by
  obtain ⟨hA, hB, hC, hD⟩ :=
    @StOk_addFrameDelta st h (target - st.cumulativeRotation) s
      (by linarith) hs m tw p
  exact ⟨hA, by rw [hD]; ring, hB, hC⟩

/-- Pushing a transition frame of size `τ` then a frame landing the
cumulative rotation on `target`. -/
lemma StOk_two (st : LoopState) (h : StOk st) (m τ : ℚ)
    (tw1 tw2 : Option ℚ) (p1 p2 : String) (s1 s2 : ℚ) (target : ℚ)
    (hτ : 0 ≤ τ) (hs1 : 0 < s1) (hs2 : 0 < s2)
    (htarget : st.cumulativeRotation + τ ≤ target) :
    StOk (addFrameDelta m
        (target - (addFrameDelta m τ tw1 p1 s1 st).cumulativeRotation)
        tw2 p2 s2 (addFrameDelta m τ tw1 p1 s1 st)) ∧
      (addFrameDelta m
        (target - (addFrameDelta m τ tw1 p1 s1 st).cumulativeRotation)
        tw2 p2 s2 (addFrameDelta m τ tw1 p1 s1 st)).cumulativeRotation =
        target ∧
      st.elapsedTime ≤ (addFrameDelta m
        (target - (addFrameDelta m τ tw1 p1 s1 st).cumulativeRotation)
        tw2 p2 s2 (addFrameDelta m τ tw1 p1 s1 st)).elapsedTime ∧
      (addFrameDelta m
        (target - (addFrameDelta m τ tw1 p1 s1 st).cumulativeRotation)
        tw2 p2 s2 (addFrameDelta m τ tw1 p1 s1 st)).previousPosition =
        st.previousPosition := by
  obtain ⟨hA1, hB1, hC1, hD1⟩ := StOk_addFrameDelta h hτ hs1 m tw1 p1
  have hd2 : (addFrameDelta m τ tw1 p1 s1 st).cumulativeRotation ≤
      target := by
    rw [hD1]
    linarith
  obtain ⟨hA2, hB2, hC2, hD2⟩ := StOk_one _ hA1 m tw2 p2 s2 target hs2 hd2
  exact ⟨hA2, hB2, le_trans hB1 hC2, by rw [hD2, hC1]⟩

/-- A non-last loop iteration with a non-negative rotation delta keeps
the bookkeeping, lands the cumulative rotation on the flip boundary,
and leaves a straight-skill previous-position untouched. -/
lemma flipIter_notLast_ok (args : LoopArgs) (k : ℕ) (st : LoopState)
    (h : StOk st)
    (hisL : decide (args.finalRotation ≤
      min (k : ℚ) |args.finalRotation| - st.cumulativeRotation +
        st.cumulativeRotation) = false)
    (hd : 0 ≤ min (k : ℚ) |args.finalRotation| - st.cumulativeRotation) :
    StOk (flipIter args k st).1 ∧
      (flipIter args k st).1.cumulativeRotation =
        min (k : ℚ) |args.finalRotation| ∧
      st.elapsedTime ≤ (flipIter args k st).1.elapsedTime ∧
      (args.definition.position = Position.Straight →
        st.previousPosition = Position.Straight →
        (flipIter args k st).1.previousPosition = Position.Straight) := by
  have hτ0 : 0 ≤ min transitionRotation
      ((min (k : ℚ) |args.finalRotation| - st.cumulativeRotation) / 2) :=
    le_min (by norm_num [transitionRotation]) (by linarith)
  have hτle : min transitionRotation
      ((min (k : ℚ) |args.finalRotation| - st.cumulativeRotation) / 2) ≤
      (min (k : ℚ) |args.finalRotation| - st.cumulativeRotation) / 2 :=
    min_le_right _ _
  have hstok : ∀ p : Position, StOk { st with previousPosition := p } :=
    fun _ => h
  simp only [flipIter, hisL, Bool.false_eq_true, and_false, false_and,
    and_true, if_false, ite_false, sub_zero, eq_self_iff_true, if_true,
    ite_true]
  split_ifs with h1 h2
  · -- twist-forced Straight, with an entry transition
    obtain ⟨hA, hB, hC, hD⟩ := StOk_two
      { st with previousPosition := Position.Straight }
      (hstok Position.Straight) args.rotationMultiplier _ (some 0)
      (some (args.definition.twists.getD k 0)) Position.Straight.str
      Position.Straight.str ((relativePositionSpeeds Position.Straight +
        relativePositionSpeeds Position.Straight) / 2)
      (relativePositionSpeeds Position.Straight)
      (min (k : ℚ) |args.finalRotation|) hτ0
      (by norm_num [relativePositionSpeeds])
      (relativePositionSpeeds_pos Position.Straight)
      (by dsimp only; linarith)
    exact ⟨hA, hB, hC, fun _ _ => by rw [hD]⟩
  · -- twist-forced Straight, no entry transition
    obtain ⟨hA, hB, hC, hD⟩ := StOk_one st h args.rotationMultiplier
      (some (args.definition.twists.getD k 0)) Position.Straight.str
      (relativePositionSpeeds Position.Straight)
      (min (k : ℚ) |args.finalRotation|)
      (relativePositionSpeeds_pos Position.Straight) (by linarith)
    refine ⟨hA, hB, hC, fun _ hp => by rw [hD]; exact hp⟩
  · -- skill position, with an entry transition
    obtain ⟨hA, hB, hC, hD⟩ := StOk_two
      { st with previousPosition := args.definition.position }
      (hstok args.definition.position) args.rotationMultiplier _ (some 0)
      (some (args.definition.twists.getD k 0))
      args.definition.position.str args.definition.position.str
      ((relativePositionSpeeds args.definition.position +
        relativePositionSpeeds args.definition.position) / 2)
      (relativePositionSpeeds args.definition.position)
      (min (k : ℚ) |args.finalRotation|) hτ0
      (by linarith [relativePositionSpeeds_pos args.definition.position])
      (relativePositionSpeeds_pos args.definition.position)
      (by dsimp only; linarith)
    exact ⟨hA, hB, hC, fun hp _ => by rw [hD]; exact hp⟩
  · -- skill position, no entry transition
    obtain ⟨hA, hB, hC, hD⟩ := StOk_one st h args.rotationMultiplier
      (some (args.definition.twists.getD k 0))
      args.definition.position.str
      (relativePositionSpeeds args.definition.position)
      (min (k : ℚ) |args.finalRotation|)
      (relativePositionSpeeds_pos args.definition.position) (by linarith)
    refine ⟨hA, hB, hC, fun _ hp => by rw [hD]; exact hp⟩

/-- The last loop iteration keeps the bookkeeping provided the final
flip's rotation covers the kickout budget whenever the body position is
non-straight. -/
lemma flipIter_last_ok (args : LoopArgs) (k : ℕ) (st : LoopState)
    (h : StOk st)
    (hmin : min (k : ℚ) |args.finalRotation| = args.finalRotation)
    (hd : 0 ≤ args.finalRotation - st.cumulativeRotation)
    (hkick : args.definition.position ≠ Position.Straight →
      args.renderProps.kickoutRotation ≤
        args.finalRotation - st.cumulativeRotation)
    (hkick0 : 0 ≤ args.renderProps.kickoutRotation)
    (hprev : args.definition.position = Position.Straight →
      st.previousPosition = Position.Straight) :
    StOk (flipIter args k st).1 ∧
      st.elapsedTime ≤ (flipIter args k st).1.elapsedTime := by
  have hsd := relativePositionSpeeds_pos args.definition.position
  have hstok : ∀ p : Position, StOk { st with previousPosition := p } :=
    fun _ => h
  simp only [flipIter]
  rw [show min ((k : ℚ)) |args.finalRotation| - st.cumulativeRotation +
    st.cumulativeRotation = min ((k : ℚ)) |args.finalRotation| by ring]
  rw [hmin]
  simp only [le_refl, decide_True, Bool.true_eq_false, eq_self_iff_true,
    and_false, false_and, and_true, true_and, if_true, ite_true, if_false,
    ite_false, ne_eq]
  set dd := args.finalRotation - st.cumulativeRotation -
    args.renderProps.kickoutRotation with hdd
  set τ := min transitionRotation (dd / 2) with hτdef
  split_ifs
  · -- straight position, no entry transition: a single landing frame
    rename_i h1 h2
    obtain ⟨hA, hB, _, _⟩ :=
      StOk_addFrameDelta h
        (show (0:ℚ) ≤ args.finalRotation - st.cumulativeRotation from hd)
        hsd args.rotationMultiplier
        (some (args.definition.twists.getD k 0))
        (bedPositionToJoints args.definition.endingPosition)
    exact ⟨hA, hB⟩
  · -- straight position with an entry transition is impossible: the
    -- previous position is already straight
    rename_i h1 h2
    exact absurd (h1.trans (hprev h1).symm) h2
  · -- non-straight position, no entry transition: kickout phase
    rename_i h1 h2
    have hr0 : 0 ≤ dd := by
      rw [hdd]
      have := hkick h1
      linarith
    have hτ0 : 0 ≤ τ :=
      le_min (by norm_num [transitionRotation]) (by linarith)
    have hτle : τ ≤ dd / 2 := min_le_right _ _
    obtain ⟨hA2, hB2, _, _⟩ :=
      StOk_addFrameDelta h (show (0:ℚ) ≤ dd - τ by linarith) hsd
        args.rotationMultiplier (some 0) args.definition.position.str
    obtain ⟨hA3, hB3, _, _⟩ :=
      StOk_addFrameDelta hA2 hτ0
        (show (0:ℚ) < (relativePositionSpeeds args.definition.position + 1)
          / 2 by linarith)
        args.rotationMultiplier _ Position.Straight.str
    obtain ⟨hA4, hB4, _, _⟩ :=
      StOk_addFrameDelta hA3 hkick0 one_pos args.rotationMultiplier _
        (bedPositionToJoints args.definition.endingPosition)
    exact ⟨hA4, le_trans hB2 (le_trans hB3 hB4)⟩
  · -- non-straight position, entry transition, kickout phase
    rename_i h1 h2
    have hr0 : 0 ≤ dd := by
      rw [hdd]
      have := hkick h1
      linarith
    have hτ0 : 0 ≤ τ :=
      le_min (by norm_num [transitionRotation]) (by linarith)
    have hτle : τ ≤ dd / 2 := min_le_right _ _
    obtain ⟨hA1, hB1, _, _⟩ :=
      StOk_addFrameDelta (hstok args.definition.position) hτ0
        (show (0:ℚ) < (relativePositionSpeeds args.definition.position +
          relativePositionSpeeds args.definition.position) / 2 by linarith)
        args.rotationMultiplier (some 0) args.definition.position.str
    obtain ⟨hA2, hB2, _, _⟩ :=
      StOk_addFrameDelta hA1 (show (0:ℚ) ≤ dd - τ - τ by linarith) hsd
        args.rotationMultiplier (some 0) args.definition.position.str
    obtain ⟨hA3, hB3, _, _⟩ :=
      StOk_addFrameDelta hA2 hτ0
        (show (0:ℚ) < (relativePositionSpeeds args.definition.position + 1)
          / 2 by linarith)
        args.rotationMultiplier _ Position.Straight.str
    obtain ⟨hA4, hB4, _, _⟩ :=
      StOk_addFrameDelta hA3 hkick0 one_pos args.rotationMultiplier _
        (bedPositionToJoints args.definition.endingPosition)
    exact ⟨hA4, le_trans hB1 (le_trans hB2 (le_trans hB3 hB4))⟩

lemma headD_map_rat (g : ℚ → ℚ) (l : List ℚ) (h : l ≠ []) :
    (l.map g).headD 1 = g (l.headD 0) := by
  cases l with
  | nil => exact absurd rfl h
  | cons a rest => rfl

lemma getLastD_map_rat (g : ℚ → ℚ) (l : List ℚ) (h : l ≠ []) :
    (l.map g).getLastD 0 = g (l.getLastD 0) := by
  rw [List.getLastD_eq_getLast?, List.getLastD_eq_getLast?,
    List.getLast?_map, getLast?_eq_getLastD l 0 h]
  rfl

/-- The initial loop state satisfies the timestamp bookkeeping, has
consumed exactly the stall time, carries the starting offset plus the
stall as cumulative rotation, and keeps a Straight previous position. -/
lemma convInit_ok (d : SkillDefinition) (t : ℚ) :
    StOk (convInit d t none) ∧
      (getRenderPropertiesForSkill d).stallRotation ≤
        (convInit d t none).elapsedTime ∧
      (convInit d t none).cumulativeRotation =
        (adjustedRotation d - d.flips) +
          (getRenderPropertiesForSkill d).stallRotation ∧
      (convInit d t none).previousPosition = Position.Straight := by
  have hst0 : StOk
      { cumulativeRotation := startingPositionRotations d.startingPosition *
          (if d.isBackSkill then -1 else 1)
        cumulativeTwist := some 0
        elapsedTime := 0
        frames := [{ rotation := startingRotation d t
                     twist := some 0
                     joints := bedPositionToJoints d.startingPosition }]
        timestamps := [0]
        previousPosition := Position.Straight } :=
    ⟨by simp, List.chain'_singleton 0, rfl, rfl⟩
  obtain ⟨hA, _, hC, hD⟩ :=
    StOk_addFrameDelta hst0 (stall_pos d).le one_pos
      (getRotationMultiplier d t) (d.twists.get? 0) Position.Straight.str
  refine ⟨hA, ?_, ?_, hC.trans rfl⟩
  · show (getRenderPropertiesForSkill d).stallRotation ≤
      0 + (getRenderPropertiesForSkill d).stallRotation / 1
    norm_num
  · show startingPositionRotations d.startingPosition *
        (if d.isBackSkill then -1 else 1) +
        (getRenderPropertiesForSkill d).stallRotation = _
    unfold adjustedRotation
    ring

/-- C1 amended: for every SkillDefinition with `flips > 0`, under the
default render properties, the produced timestamps start at exactly 0,
end at exactly 1, and are non-decreasing — provided that, when the body
position is not Straight, the final flip's rotation delta covers the
kickout rotation budget (`kickoutRotation ≤ lastFlipDelta`). -/
theorem C1_timestamps_normalized_monotone (d : SkillDefinition) (t : ℚ)
    (h0 : 0 < d.flips)
    (hkick : d.position ≠ Position.Straight →
      (getRenderPropertiesForSkill d).kickoutRotation ≤
        lastFlipDelta d (getRenderPropertiesForSkill d)) :
    (makeSkillFrames d t none).timestamps.headD 1 = 0 ∧
      (makeSkillFrames d t none).timestamps.getLastD 0 = 1 ∧
      List.Chain' (· ≤ ·) (makeSkillFrames d t none).timestamps := by
  by_cases hrot : flipNumber d = 0
  · rw [makeSkillFrames, if_pos hrot]
    unfold makeNonFlipFrames
    dsimp only
    split_ifs <;>
      refine ⟨rfl, rfl, ?_⟩ <;> norm_num [List.chain'_cons]
  · rw [makeSkillFrames_rotating d t none hrot]
    dsimp only
    have hf2 := rotating_ge_half d h0 hrot
    have habs : |adjustedRotation d| = adjustedRotation d :=
      abs_of_pos (by linarith)
    have hoff := offset_abs_le d
    rw [abs_le] at hoff
    have hstall4 := stall_le_quarter d
    have hstall0 := stall_pos d
    have hK1 : 1 ≤ loopFlips (adjustedRotation d) := le_max_left 1 _
    have hKf : adjustedRotation d ≤ (loopFlips (adjustedRotation d) : ℚ) := by
      unfold loopFlips
      have hc1 : (1 : ℤ) ≤ ⌈adjustedRotation d⌉ := by
        rw [Int.le_ceil_iff]
        norm_num
        linarith
      have : (max 1 ⌈adjustedRotation d⌉.toNat : ℤ) =
          ⌈adjustedRotation d⌉ := by omega
      have hcast : ((max 1 ⌈adjustedRotation d⌉.toNat : ℕ) : ℚ) =
          ((⌈adjustedRotation d⌉ : ℤ) : ℚ) := by exact_mod_cast this
      rw [hcast]
      exact_mod_cast Int.le_ceil (adjustedRotation d)
    set rp := getRenderPropertiesForSkill d with hrp
    set f := adjustedRotation d with hfdef
    set K := loopFlips f with hKdef
    have hargF : (convArgs d t none).finalRotation = f := rfl
    have hargR : (convArgs d t none).renderProps = rp := rfl
    have hQ : StOk (flipLoop (convArgs d t none) K 1 (convInit d t none)) ∧
        rp.stallRotation ≤
          (flipLoop (convArgs d t none) K 1 (convInit d t none)).elapsedTime
        := by
      refine flipLoop_spec (convArgs d t none)
        (fun k st => StOk st ∧ rp.stallRotation ≤ st.elapsedTime ∧
          st.cumulativeRotation =
            (if k = 1 then f - d.flips + rp.stallRotation
             else (k : ℚ) - 1) ∧
          (d.position = Position.Straight →
            st.previousPosition = Position.Straight))
        (fun st => StOk st ∧ rp.stallRotation ≤ st.elapsedTime)
        ?_ ?_ K 1 (convInit d t none) le_rfl hK1 (by rw [hargF]; omega) ?_
      · -- non-last iterations
        intro k st hk1 hkK hP
        rw [hargF] at hkK
        obtain ⟨hst, hel, hcum, hpv⟩ := hP
        have hnotle : ¬ (f ≤ min (k : ℚ) |f|) := by
          intro hc
          have := (isLast_cond_iff f k hk1).mp hc
          omega
        have hminlt : min (k : ℚ) |f| < f := lt_of_not_le hnotle
        have hmink : min (k : ℚ) |f| = (k : ℚ) := by
          rcases min_cases ((k : ℚ)) |f| with ⟨hmc, _⟩ | ⟨hmc, _⟩
          · exact hmc
          · rw [hmc, habs] at hminlt
            exact absurd hminlt (lt_irrefl _)
        have hd : 0 ≤ min (k : ℚ) |f| - st.cumulativeRotation := by
          rw [hmink, hcum]
          by_cases hk : k = 1
          · subst hk
            have hfgt : 1 < f := by
              rw [hmink] at hminlt
              exact_mod_cast hminlt
            simp only [if_pos rfl]
            push_cast
            linarith [hoff.2]
          · rw [if_neg hk]
            have : (2 : ℕ) ≤ k := by omega
            push_cast
            linarith
        have hisL : decide (f ≤ min (k : ℚ) |f| - st.cumulativeRotation +
            st.cumulativeRotation) = false := by
          rw [decide_eq_false_iff_not]
          intro hc
          exact hnotle (by linarith)
        obtain ⟨hA, hB, hC, hD⟩ :=
          flipIter_notLast_ok (convArgs d t none) k st hst hisL hd
        refine ⟨hA, le_trans hel hC, ?_, fun hs => hD hs (hpv hs)⟩
        rw [hB, hargF, hmink]
        have : ¬ (k + 1 = 1) := by omega
        rw [if_neg this]
        push_cast
        ring
      · -- last iteration
        intro st hP
        rw [hargF, ← hKdef] at hP
        obtain ⟨hst, hel, hcum, hpv⟩ := hP
        have hmin : min (K : ℚ) |f| = f := by
          rw [habs]
          exact min_eq_right hKf
        have hfc : f - st.cumulativeRotation =
            lastFlipDelta d rp := by
          rw [hcum]
          unfold lastFlipDelta
          rw [← hfdef, ← hKdef]
          by_cases hk : K = 1
          · rw [if_pos hk, if_pos ((loopFlips_eq_one_iff f hf2).mp hk)]
            ring
          · have hgt : ¬ (f ≤ 1) := by
              intro hc
              exact hk ((loopFlips_eq_one_iff f hf2).mpr hc)
            rw [if_neg hk, if_neg hgt]
        have hdel : 0 ≤ f - st.cumulativeRotation := by
          rw [hcum]
          by_cases hk : K = 1
          · rw [if_pos hk]
            have hsf := stall_le_flips d h0 hrot
            rw [← hrp] at hsf
            linarith
          · rw [if_neg hk]
            have hK2 : 2 ≤ K := by omega
            have hco := (ceil_sub_one_lt f (by rw [← hKdef]; exact hK2)).1
            rw [← hKdef] at hco
            linarith
        obtain ⟨hA, hB⟩ := flipIter_last_ok (convArgs d t none) K st hst
          hmin hdel (fun hns => by rw [hargR, hargF, hfc]; exact hkick hns)
          (kick_nonneg d) hpv
        exact ⟨hA, le_trans hel hB⟩
      · -- the initial state after the stall frame
        obtain ⟨hA, hB, hC, hD⟩ := convInit_ok d t
        rw [← hrp] at hB hC
        rw [← hfdef] at hC
        refine ⟨hA, hB, ?_, fun _ => hD⟩
        rw [hC]
        simp
    obtain ⟨⟨hne, hch, hlastd, hheadd⟩, hstel⟩ := hQ
    set ts := LoopState.timestamps
      (flipLoop (convArgs d t none) K 1 (convInit d t none)) with hts
    have hdur : ts.getLastD 0 - ts.headD 0 =
        LoopState.elapsedTime
          (flipLoop (convArgs d t none) K 1 (convInit d t none)) := by
      rw [hlastd, hheadd]
      ring
    have hpos : 0 < ts.getLastD 0 - ts.headD 0 := by
      rw [hdur]
      linarith
    unfold normalizeTimestamps
    rw [if_neg (by intro hc; rw [hc] at hpos; exact lt_irrefl 0 hpos)]
    refine ⟨?_, ?_, ?_⟩
    · rw [headD_map_rat _ ts hne, hheadd]
      norm_num
    · rw [getLastD_map_rat _ ts hne]
      exact div_self hpos.ne'
    · rw [List.chain'_map]
      apply List.Chain'.imp ?_ hch
      intro a b hab
      apply div_le_div_of_nonneg_right ?_ hpos.le
      linarith

/-- The previous position after a non-last iteration is the position the
iteration rendered (straight when a twist is pending, the skill position
otherwise). -/
lemma flipIter_notLast_prev (args : LoopArgs) (k : ℕ) (st : LoopState)
    (hisL : decide (args.finalRotation ≤
      min (k : ℚ) |args.finalRotation| - st.cumulativeRotation +
        st.cumulativeRotation) = false) :
    (flipIter args k st).1.previousPosition =
      if 0 < args.definition.twists.getD k 0 then Position.Straight
      else args.definition.position := by
  simp only [flipIter, hisL, Bool.false_eq_true, and_false, false_and,
    and_true, if_false, ite_false, sub_zero, eq_self_iff_true, if_true,
    ite_true]
  split_ifs <;> simp_all [addFrameDelta]

/-- In the last iteration with a non-straight position already entered,
the three kickout frames append exactly these timestamps. -/
lemma flipIter_last_noentry_timestamps (args : LoopArgs) (k : ℕ)
    (st : LoopState)
    (hmin : min (k : ℚ) |args.finalRotation| = args.finalRotation)
    (hpos : ¬ args.definition.position = Position.Straight)
    (hprev : st.previousPosition = args.definition.position) :
    (flipIter args k st).1.timestamps = st.timestamps ++
        [st.elapsedTime +
          (args.finalRotation - st.cumulativeRotation -
            args.renderProps.kickoutRotation -
            min transitionRotation
              ((args.finalRotation - st.cumulativeRotation -
                args.renderProps.kickoutRotation) / 2)) /
            relativePositionSpeeds args.definition.position,
         st.elapsedTime +
          (args.finalRotation - st.cumulativeRotation -
            args.renderProps.kickoutRotation -
            min transitionRotation
              ((args.finalRotation - st.cumulativeRotation -
                args.renderProps.kickoutRotation) / 2)) /
            relativePositionSpeeds args.definition.position +
          min transitionRotation
              ((args.finalRotation - st.cumulativeRotation -
                args.renderProps.kickoutRotation) / 2) /
            ((relativePositionSpeeds args.definition.position + 1) / 2),
         st.elapsedTime +
          (args.finalRotation - st.cumulativeRotation -
            args.renderProps.kickoutRotation -
            min transitionRotation
              ((args.finalRotation - st.cumulativeRotation -
                args.renderProps.kickoutRotation) / 2)) /
            relativePositionSpeeds args.definition.position +
          min transitionRotation
              ((args.finalRotation - st.cumulativeRotation -
                args.renderProps.kickoutRotation) / 2) /
            ((relativePositionSpeeds args.definition.position + 1) / 2) +
          args.renderProps.kickoutRotation / 1] := by
  simp only [flipIter]
  rw [show min ((k : ℚ)) |args.finalRotation| - st.cumulativeRotation +
    st.cumulativeRotation = min ((k : ℚ)) |args.finalRotation| by ring]
  rw [hmin]
  simp only [le_refl, decide_True, Bool.true_eq_false, eq_self_iff_true,
    and_false, false_and, and_true, true_and, if_true, ite_true, if_false,
    ite_false, ne_eq]
  split_ifs with h2
  · simp [addFrameDelta]
  · exact absurd hprev.symm h2

lemma getLastD_append_right (l1 l2 : List ℚ) (d : ℚ) (h : l2 ≠ []) :
    (l1 ++ l2).getLastD d = l2.getLastD d := by
  rw [List.getLastD_eq_getLast?, List.getLastD_eq_getLast?,
    List.getLast?_append, getLast?_eq_getLastD l2 d h]
  rfl

/-- Counterexample for C1: the skill "Puck 1.25" (a forward 1¼ flip in
Tuck from Standing) has `flips = 5/4 > 0`, yet the timestamps produced by
`makeSkillFrames` are not non-decreasing: in the last flip the kickout
rotation budget (1/2) exceeds the remaining quarter rotation, so the
kickout frames get negative rotation deltas and the clock runs backwards. -/
theorem C1_timestamps_counterexample :
    0 < flip125.flips ∧
      ¬ List.Chain' (· ≤ ·) (makeSkillFrames flip125 0 none).timestamps := by
  constructor
  · norm_num [flip125]
  ·
    have hrot : ¬ flipNumber flip125 = 0 := by
      rw [flipNumber_eq_round]
      norm_num [jsRound, adjustedRotation, flip125, startingPositionRotations]
    rw [makeSkillFrames_rotating flip125 0 none hrot]
    dsimp only
    have hfR : (convArgs flip125 0 none).finalRotation = 5/4 := by
      norm_num [convArgs, adjustedRotation, flip125, startingPositionRotations]
    have hK : loopFlips (adjustedRotation flip125) = 2 := by
      have hc : ⌈adjustedRotation flip125⌉ = 2 := by
        rw [show adjustedRotation flip125 = 5/4 from by
          norm_num [adjustedRotation, flip125, startingPositionRotations]]
        rw [Int.ceil_eq_iff] <;> norm_num
      unfold loopFlips
      rw [hc]
      decide
    obtain ⟨hI, hIe, hIc, hIp⟩ := convInit_ok flip125 0
    have hstall : (getRenderPropertiesForSkill flip125).stallRotation
        = 1/10 := by
      norm_num [getRenderPropertiesForSkill, flip125]
      all_goals decide
    have hc0 : (convInit flip125 0 none).cumulativeRotation = 1/10 := by
      rw [hIc, hstall]
      norm_num [adjustedRotation, flip125, startingPositionRotations]
    have habs54 : |(5/4 : ℚ)| = 5/4 := by
      rw [abs_of_pos] <;> norm_num
    have hisL1 : decide ((convArgs flip125 0 none).finalRotation ≤
        min ((1 : ℕ) : ℚ) |(convArgs flip125 0 none).finalRotation| -
          (convInit flip125 0 none).cumulativeRotation +
          (convInit flip125 0 none).cumulativeRotation) = false := by
      rw [decide_eq_false_iff_not, hfR, hc0, habs54, Nat.cast_one]
      norm_num [min_def]
    have hd1 : 0 ≤ min ((1 : ℕ) : ℚ)
        |(convArgs flip125 0 none).finalRotation| -
        (convInit flip125 0 none).cumulativeRotation := by
      rw [hfR, hc0, habs54, Nat.cast_one]
      norm_num [min_def]
    obtain ⟨h1ok, h1c, h1e, _⟩ := flipIter_notLast_ok (convArgs flip125 0 none)
      1 (convInit flip125 0 none) hI hisL1 hd1
    have hc1 : (flipIter (convArgs flip125 0 none) 1
        (convInit flip125 0 none)).1.cumulativeRotation = 1 := by
      rw [h1c, hfR, habs54, Nat.cast_one]
      norm_num [min_def]
    have hp1 : (flipIter (convArgs flip125 0 none) 1
        (convInit flip125 0 none)).1.previousPosition = Position.Tuck := by
      rw [flipIter_notLast_prev (convArgs flip125 0 none) 1
        (convInit flip125 0 none) hisL1]
      norm_num [convArgs, flip125]
    have he1 : (1 : ℚ)/10 ≤ (flipIter (convArgs flip125 0 none) 1
        (convInit flip125 0 none)).1.elapsedTime :=
      le_trans (by rw [← hstall]; exact hIe) h1e
    have hL1 : (flipIter (convArgs flip125 0 none) 1
        (convInit flip125 0 none)).2 = false := by
      rw [flipIter_isLast, hfR, habs54, Nat.cast_one]
      rw [decide_eq_false_iff_not]
      norm_num [min_def]
    have hL2 : (flipIter (convArgs flip125 0 none) 2
        (flipIter (convArgs flip125 0 none) 1
          (convInit flip125 0 none)).1).2 = true := by
      rw [flipIter_isLast, hfR, habs54]
      rw [decide_eq_true_eq]
      norm_num [min_def]
    have hloop : flipLoop (convArgs flip125 0 none)
        (loopFlips (adjustedRotation flip125)) 1 (convInit flip125 0 none) =
        (flipIter (convArgs flip125 0 none) 2
          (flipIter (convArgs flip125 0 none) 1
            (convInit flip125 0 none)).1).1 := by
      rw [hK]
      rcases hiter : flipIter (convArgs flip125 0 none) 1
        (convInit flip125 0 none) with ⟨st', isL⟩
      rw [flipLoop, hiter]
      dsimp only
      have hl : isL = false := by rw [← hL1, hiter]
      rw [hl]
      simp only [Bool.false_eq_true, if_false, ite_false]
      have hst' : st' = (flipIter (convArgs flip125 0 none) 1
          (convInit flip125 0 none)).1 := by rw [hiter]
      rw [hst']
      rcases hiter2 : flipIter (convArgs flip125 0 none) 2
        (flipIter (convArgs flip125 0 none) 1
          (convInit flip125 0 none)).1 with ⟨st'', isL2⟩
      rw [flipLoop, hiter2]
      dsimp only
      have hl2 : isL2 = true := by rw [← hL2, hiter2]
      rw [hl2]
      simp only [if_true, ite_true]
    rw [hloop]
    have hmin2 : min ((2 : ℕ) : ℚ)
        |(convArgs flip125 0 none).finalRotation| =
        (convArgs flip125 0 none).finalRotation := by
      rw [hfR, habs54]
      norm_num [min_def]
    have hpos2 : ¬ (convArgs flip125 0 none).definition.position =
        Position.Straight := by
      simp [convArgs, flip125]
    have hprev2 : (flipIter (convArgs flip125 0 none) 1
        (convInit flip125 0 none)).1.previousPosition =
        (convArgs flip125 0 none).definition.position := by
      rw [hp1]
      rfl
    have hts := flipIter_last_noentry_timestamps (convArgs flip125 0 none) 2
      (flipIter (convArgs flip125 0 none) 1 (convInit flip125 0 none)).1
      hmin2 hpos2 hprev2
    have hkickv : (convArgs flip125 0 none).renderProps.kickoutRotation =
        1/2 := by
      norm_num [convArgs, getRenderPropertiesForSkill, flip125]
      all_goals decide
    have hspeed : relativePositionSpeeds
        (convArgs flip125 0 none).definition.position = 5/2 := by
      norm_num [convArgs, flip125, relativePositionSpeeds]
    rw [hfR, hkickv, hc1, hspeed] at hts
    have hτv : min transitionRotation (((5:ℚ)/4 - 1 - 1/2) / 2) = -(1/8) := by
      norm_num [transitionRotation, min_def]
    rw [hτv] at hts
    obtain ⟨hne1, hch1, hlast1, hhead1⟩ := h1ok
    rw [hts]
    set e := (flipIter (convArgs flip125 0 none) 1
      (convInit flip125 0 none)).1.elapsedTime with he
    set L := (flipIter (convArgs flip125 0 none) 1
      (convInit flip125 0 none)).1.timestamps with hLdef
    set x := e + (5/4 - 1 - 1/2 - -(1/8)) / ((5:ℚ)/2) with hx
    set y := x + -(1/8) / (((5:ℚ)/2 + 1) / 2) with hy
    set z := y + (1:ℚ)/2/1 with hz
    have hhead : (L ++ [x, y, z]).headD 0 = 0 := by
      rw [headD_append_left L _ hne1 0]
      exact hhead1
    have hlastA : (L ++ [x, y, z]).getLastD 0 = z := by
      rw [getLastD_append_right L [x, y, z] 0 (by simp)]
      rfl
    have hzpos : 0 < z := by
      rw [hz, hy, hx]
      have : e + (5/4 - 1 - 1/2 - -(1/8)) / ((5:ℚ)/2) +
          -(1/8) / (((5:ℚ)/2 + 1) / 2) + (1:ℚ)/2/1 = e + 53/140 := by ring
      rw [this]
      linarith
    intro hch
    unfold normalizeTimestamps at hch
    have hifne : ¬ ((L ++ [x, y, z]).getLastD 0 -
        (L ++ [x, y, z]).headD 0 = 0) := by
      rw [hlastA, hhead, sub_zero]
      exact hzpos.ne'
    rw [if_neg hifne] at hch
    rw [List.map_append] at hch
    have hpair := (List.chain'_append.mp hch).2.1
    simp only [List.map_cons, List.map_nil, List.chain'_cons] at hpair
    have hxy := hpair.1
    rw [hhead, hlastA] at hxy
    rw [sub_zero, sub_zero, sub_zero] at hxy
    rw [div_le_div_iff hzpos hzpos] at hxy
    have hyx : y < x := by
      rw [hy]
      have hneg : -(1/8) / (((5:ℚ)/2 + 1) / 2) = -(1/14) := by norm_num
      rw [hneg]
      linarith
    nlinarith [hxy, hyx, hzpos]

/-- Witness for C1: the front flip (1 flip, Tuck) satisfies both
hypotheses, and its timestamps start at 0, end at 1 and are
non-decreasing. -/
theorem C1_timestamps_normalized_monotone_witness :
    (0 < frontFlip.flips) ∧
      ((makeSkillFrames frontFlip 0 none).timestamps.headD 1 = 0 ∧
        (makeSkillFrames frontFlip 0 none).timestamps.getLastD 0 = 1 ∧
        List.Chain' (· ≤ ·) (makeSkillFrames frontFlip 0 none).timestamps) :=
  ⟨by norm_num [frontFlip],
   C1_timestamps_normalized_monotone frontFlip 0 (by norm_num [frontFlip])
     (fun _ => by
       have hb : BedPosition.Standing ≠ BedPosition.Back := by decide
       norm_num [getRenderPropertiesForSkill, lastFlipDelta,
         adjustedRotation, frontFlip, startingPositionRotations, if_neg hb])⟩

end VirtualCoach
